import Mathlib

/-!
Verification of the pianist habit-tracker core: the Schedule family
(hourly / daily / weekly / monthly / exponential), the bucket aggregator,
the streak engine and the session state machine.

Datetimes are modelled as `Int` seconds on a naive local time axis whose
day boundaries sit at multiples of 86400 (so Python's `datetime.date()`
is integer floor-division by 86400 and `timedelta.days` is floor division
of the difference in seconds).  Python's `//` on integers is `Int.fdiv`,
its `%` with a positive divisor is `Int.emod`.
-/

namespace Pianist

/-- `src/util/time.py`: MINUTE constant. -/
def MINUTE : Int := 60

/-- `src/util/time.py`: HOUR constant. -/
def HOUR : Int := 3600

/-- `src/util/time.py`: DAY constant. -/
def DAY : Int := 86400

/-- `src/util/time.py`: WEEK constant. -/
def WEEK : Int := 604800

/-- `src/util/time.py`: MONTH constant. -/
def MONTH : Int := 2592000

/-- Python `datetime.date()` on the naive axis: the calendar day index. -/
def dateOf (t : Int) : Int := t.fdiv 86400

/-! ## HourlySchedule (`src/schedule/hourly.py`) -/

/-- `HourlySchedule.get_next_task`: if `from_dt < start` return `start`,
else `start + (hours_since_start + 1) hours` where
`hours_since_start = int((from_dt - start).total_seconds() // 3600)`. -/
def hourlyGetNextTask (start fromDt : Int) : Int :=
  if fromDt < start then start
  else start + 3600 * ((fromDt - start).fdiv 3600 + 1)

/-- `HourlySchedule.get_previous_task`: `None` if `from_dt <= start` or
less than one hour since start, else `start + (hours_since_start - 1) hours`. -/
def hourlyGetPreviousTask (start fromDt : Int) : Option Int :=
  if fromDt ≤ start then none
  else if (fromDt - start).fdiv 3600 = 0 then none
  else some (start + 3600 * ((fromDt - start).fdiv 3600 - 1))

/-- `HourlySchedule.get_scale`: returns `time.HOUR`. -/
def hourlyGetScale : Int := HOUR

/-! ## DailySchedule (`src/schedule/daily.py`) -/

/-- `DailySchedule.get_next_task`: if `from_dt < start` return `start`;
else with `d = (from_dt - start).days` and `cur = start + d days`,
return `cur` when `cur.date() >= from_dt.date()` and `start + (d+1) days`
otherwise. -/
def dailyGetNextTask (start fromDt : Int) : Int :=
  if fromDt < start then start
  else if dateOf fromDt ≤ dateOf (start + 86400 * ((fromDt - start).fdiv 86400)) then
    start + 86400 * ((fromDt - start).fdiv 86400)
  else start + 86400 * ((fromDt - start).fdiv 86400 + 1)

/-- `DailySchedule.get_previous_task`: `None` if `from_dt <= start` or zero
days since start, else `start + (days_since_start - 1) days`. -/
def dailyGetPreviousTask (start fromDt : Int) : Option Int :=
  if fromDt ≤ start then none
  else if (fromDt - start).fdiv 86400 = 0 then none
  else some (start + 86400 * ((fromDt - start).fdiv 86400 - 1))

/-- `DailySchedule.get_scale`: returns `time.DAY`. -/
def dailyGetScale : Int := DAY

/-! ## WeeklySchedule (`src/schedule/weekly.py`) -/

/-- `WeeklySchedule.get_next_task`: if `from_dt < start` return `start`,
else `start + (weeks_since_start + 1) weeks` with
`weeks_since_start = (from_dt - start).days // 7`. -/
def weeklyGetNextTask (start fromDt : Int) : Int :=
  if fromDt < start then start
  else start + 604800 * (((fromDt - start).fdiv 86400).fdiv 7 + 1)

/-- `WeeklySchedule.get_previous_task`: `None` if `from_dt <= start` or zero
whole weeks since start, else `start + (weeks_since_start - 1) weeks`. -/
def weeklyGetPreviousTask (start fromDt : Int) : Option Int :=
  if fromDt ≤ start then none
  else if ((fromDt - start).fdiv 86400).fdiv 7 = 0 then none
  else some (start + 604800 * (((fromDt - start).fdiv 86400).fdiv 7 - 1))

/-- `WeeklySchedule.get_scale`: returns `time.WEEK`. -/
def weeklyGetScale : Int := WEEK

/-! ## MonthlySchedule (`src/schedule/monthly.py`) -/

/-- `MonthlySchedule.get_next_task`: if `from_dt < start` return `start`;
else with `m = (from_dt - start).days // 30`, return `start + 30*m days`,
or `start + 30*(m+1) days` when that date is already before `from_dt`. -/
def monthlyGetNextTask (start fromDt : Int) : Int :=
  if fromDt < start then start
  else if start + 2592000 * (((fromDt - start).fdiv 86400).fdiv 30) < fromDt then
    start + 2592000 * (((fromDt - start).fdiv 86400).fdiv 30 + 1)
  else start + 2592000 * (((fromDt - start).fdiv 86400).fdiv 30)

/-- `MonthlySchedule.get_previous_task`: `None` if `from_dt <= start` or zero
whole 30-day periods since start, else `start + 30*(m-1) days`. -/
def monthlyGetPreviousTask (start fromDt : Int) : Option Int :=
  if fromDt ≤ start then none
  else if ((fromDt - start).fdiv 86400).fdiv 30 = 0 then none
  else some (start + 2592000 * (((fromDt - start).fdiv 86400).fdiv 30 - 1))

/-- `MonthlySchedule.get_scale`: the source returns `time.WEEK`
(`src/schedule/monthly.py`, last line), not `time.MONTH`. -/
def monthlyGetScale : Int := WEEK

/-! ## ExponentialSchedule (`src/schedule/exponential.py`) -/

/-- Cumulative interval chain of `ExponentialSchedule`:
`expCum b k = base^1 + base^2 + ... + base^k` (days). -/
def expCum (b : Nat) : Nat → Nat
  | 0 => 0
  | k + 1 => expCum b k + b ^ (k + 1)

/-- The `while cumulative <= days_diff` loop of
`ExponentialSchedule.get_next_task`, with explicit fuel; started with
`exp = 1`, `cumulative = 0`.  Returns the final `cumulative`. -/
def expNextLoop (b : Nat) (dd : Int) : Nat → Nat → Nat → Nat
  | 0, _, cum => cum
  | fuel + 1, e, cum =>
    if (cum : Int) ≤ dd then expNextLoop b dd fuel (e + 1) (cum + b ^ e) else cum

/-- `ExponentialSchedule.get_next_task`: if `from_dt < start` return `start`,
else run the cumulative loop on `days_diff = (from_dt - start).days` and
return `start + cumulative days`.  The fuel `dd.toNat + 2` dominates the
Python loop's iteration count for every `base >= 1` (for `base = 0` the
Python loop would not terminate at all). -/
def expGetNextTask (start : Int) (b : Nat) (fromDt : Int) : Int :=
  if fromDt < start then start
  else
    start + 86400 *
      (expNextLoop b ((fromDt - start).fdiv 86400)
        (((fromDt - start).fdiv 86400).toNat + 2) 1 0 : Int)

/-- The `while cumulative < days_diff` loop of
`ExponentialSchedule.get_previous_task`, with explicit fuel; returns the
final `(exp, cumulative)` pair. -/
def expPrevLoop (b : Nat) (dd : Int) : Nat → Nat → Nat → Nat × Nat
  | 0, e, cum => (e, cum)
  | fuel + 1, e, cum =>
    if (cum : Int) < dd then expPrevLoop b dd fuel (e + 1) (cum + b ^ e) else (e, cum)

/-- `ExponentialSchedule.get_previous_task`: `None` if `from_dt <= start`;
else run the strict cumulative loop and return
`start + (cumulative - base^(exp-1)) days`.  Note the subtraction is on
`Int`: when the loop body never runs (`days_diff = 0`) the result is
`start - base^0 days = start - 1 day`. -/
def expGetPreviousTask (start : Int) (b : Nat) (fromDt : Int) : Option Int :=
  if fromDt ≤ start then none
  else
    some (start + 86400 *
      (((expPrevLoop b ((fromDt - start).fdiv 86400)
          (((fromDt - start).fdiv 86400).toNat + 2) 1 0).2 : Int) -
        (b : Int) ^ ((expPrevLoop b ((fromDt - start).fdiv 86400)
          (((fromDt - start).fdiv 86400).toNat + 2) 1 0).1 - 1)))

/-- `ExponentialSchedule.get_scale`: the source returns `time.DAY`
(independent of `base`). -/
def expGetScale : Int := DAY

/-! ## Task-list queries (`get_previous_tasks` / `get_next_tasks`)

Each takes `now` (the Python `datetime.now()`) as an explicit argument. -/

/-- Loop of `HourlySchedule.get_previous_tasks`: the Python code appends
`get_previous_task(current)` unconditionally — including `None` — and then
feeds it back as `current`.  Calling `get_previous_task(None)` raises
`TypeError` (comparison of `None` with a datetime); we model that crash as
an overall `none` result. -/
def hourlyPrevTasksLoop (start : Int) : Nat → Option Int → Option (List (Option Int))
  | 0, _ => some []
  | _ + 1, none => none
  | n + 1, some cur =>
    let p := hourlyGetPreviousTask start cur
    (hourlyPrevTasksLoop start n p).map (fun l => p :: l)

/-- `HourlySchedule.get_previous_tasks`: `hours = timespan // HOUR`
iterations starting from `now`. -/
def hourlyGetPreviousTasks (start now timespan : Int) : Option (List (Option Int)) :=
  hourlyPrevTasksLoop start (timespan.fdiv 3600).toNat (some now)

/-- The local `tasks` list built by `HourlySchedule.get_next_tasks`:
`next_task` is always truthy, so each iteration appends it and continues
from `next_task + 1 second`. -/
def hourlyNextTasksList (start : Int) : Nat → Int → List Int
  | 0, _ => []
  | n + 1, cur =>
    let nt := hourlyGetNextTask start cur
    nt :: hourlyNextTasksList start n (nt + 1)

/-- `HourlySchedule.get_next_tasks`: the Python function builds the local
`tasks` list but has **no return statement**, so it always returns `None`
(contradicting its docstring and its `List[datetime]` annotation). -/
def hourlyGetNextTasks (start now timespan : Int) : Option (List Int) :=
  let _tasks := hourlyNextTasksList start (timespan.fdiv 3600).toNat now
  none

/-- Loop of `DailySchedule.get_previous_tasks`: same unconditional-append
pattern as the hourly one; a `None` fed back as `current` raises
`TypeError` on the next iteration, modelled as overall `none`. -/
def dailyPrevTasksLoop (start : Int) : Nat → Option Int → Option (List (Option Int))
  | 0, _ => some []
  | _ + 1, none => none
  | n + 1, some cur =>
    let p := dailyGetPreviousTask start cur
    (dailyPrevTasksLoop start n p).map (fun l => p :: l)

/-- `DailySchedule.get_previous_tasks`: `days = timespan // DAY` iterations. -/
def dailyGetPreviousTasks (start now timespan : Int) : Option (List (Option Int)) :=
  dailyPrevTasksLoop start (timespan.fdiv 86400).toNat (some now)

/-- Loop of `DailySchedule.get_next_tasks`: `next_task` is always truthy,
each iteration appends it and continues from `next_task + 1 day`. -/
def dailyNextTasksLoop (start : Int) : Nat → Int → List Int
  | 0, _ => []
  | n + 1, cur =>
    let nt := dailyGetNextTask start cur
    nt :: dailyNextTasksLoop start n (nt + 86400)

/-- `DailySchedule.get_next_tasks`. -/
def dailyGetNextTasks (start now timespan : Int) : List Int :=
  dailyNextTasksLoop start (timespan.fdiv 86400).toNat now

/-- Loop of `WeeklySchedule.get_previous_tasks`: a `None` previous task is
skipped (`if prev_task:`) and `current` is left unchanged. -/
def weeklyPrevTasksLoop (start : Int) : Nat → Int → List Int
  | 0, _ => []
  | n + 1, cur =>
    match weeklyGetPreviousTask start cur with
    | some p => p :: weeklyPrevTasksLoop start n p
    | none => weeklyPrevTasksLoop start n cur

/-- `WeeklySchedule.get_previous_tasks`: `weeks = (timespan // DAY) // 7`
iterations. -/
def weeklyGetPreviousTasks (start now timespan : Int) : List Int :=
  weeklyPrevTasksLoop start ((timespan.fdiv 86400).fdiv 7).toNat now

/-- Loop of `WeeklySchedule.get_next_tasks`: appends `next_task` and
continues from `next_task + 1 day`. -/
def weeklyNextTasksLoop (start : Int) : Nat → Int → List Int
  | 0, _ => []
  | n + 1, cur =>
    let nt := weeklyGetNextTask start cur
    nt :: weeklyNextTasksLoop start n (nt + 86400)

/-- `WeeklySchedule.get_next_tasks`. -/
def weeklyGetNextTasks (start now timespan : Int) : List Int :=
  weeklyNextTasksLoop start ((timespan.fdiv 86400).fdiv 7).toNat now

/-- Loop of `MonthlySchedule.get_previous_tasks`: appends the previous task
and continues from it, `break`ing when it is `None`. -/
def monthlyPrevTasksLoop (start : Int) : Nat → Int → List Int
  | 0, _ => []
  | n + 1, cur =>
    match monthlyGetPreviousTask start cur with
    | some p => p :: monthlyPrevTasksLoop start n p
    | none => []

/-- `MonthlySchedule.get_previous_tasks`: `months = (timespan // DAY) // 30`
iterations. -/
def monthlyGetPreviousTasks (start now timespan : Int) : List Int :=
  monthlyPrevTasksLoop start ((timespan.fdiv 86400).fdiv 30).toNat now

/-- Loop of `MonthlySchedule.get_next_tasks`: appends `next_task` and
continues from `next_task + 1 day`. -/
def monthlyNextTasksLoop (start : Int) : Nat → Int → List Int
  | 0, _ => []
  | n + 1, cur =>
    let nt := monthlyGetNextTask start cur
    nt :: monthlyNextTasksLoop start n (nt + 86400)

/-- `MonthlySchedule.get_next_tasks`. -/
def monthlyGetNextTasks (start now timespan : Int) : List Int :=
  monthlyNextTasksLoop start ((timespan.fdiv 86400).fdiv 30).toNat now

/-- Insertion of an element into an ascending list (for Python `sorted`). -/
def insAsc (x : Int) : List Int → List Int
  | [] => [x]
  | y :: ys => if x ≤ y then x :: y :: ys else y :: insAsc x ys

/-- Ascending insertion sort, modelling Python's `sorted`. -/
def sortAsc : List Int → List Int
  | [] => []
  | x :: xs => insAsc x (sortAsc xs)

/-- The `while True` loop of `ExponentialSchedule.get_previous_tasks`:
each iteration adds `base^exp` to the cumulative count and considers
`start - cumulative days`; it breaks below `cutoff` and the `exp > 20`
guard bounds it to 20 iterations (the initial fuel). -/
def expPrevTasksLoop (start : Int) (b : Nat) (cutoff current : Int) :
    Nat → Nat → Nat → List Int
  | 0, _, _ => []
  | fuel + 1, e, cum =>
    let cum' := cum + b ^ e
    let td := start - 86400 * (cum' : Int)
    if td < cutoff then []
    else
      (if td ≤ current then [td] else []) ++
        expPrevTasksLoop start b cutoff current fuel (e + 1) cum'

/-- `ExponentialSchedule.get_previous_tasks`: note the task dates are
computed as `start - cumulative days`, i.e. they lie *before* the start
anchor; the result is `sorted(tasks)` ascending. -/
def expGetPreviousTasks (start : Int) (b : Nat) (now timespan : Int) : List Int :=
  let days := timespan.fdiv 86400
  let cutoff := now - 86400 * days
  sortAsc (expPrevTasksLoop start b cutoff now 20 1 0)

/-- The unbounded `while True` loop of `ExponentialSchedule.get_next_tasks`,
with explicit fuel (the Python loop has no iteration guard; it terminates
for `base >= 1` once the dates pass `cutoff`).  Theorems below quantify
over the fuel. -/
def expNextTasksLoop (start : Int) (b : Nat) (cutoff current : Int) :
    Nat → Nat → Nat → List Int
  | 0, _, _ => []
  | fuel + 1, e, cum =>
    let cum' := cum + b ^ e
    let td := start + 86400 * (cum' : Int)
    if cutoff < td then []
    else
      (if current ≤ td then [td] else []) ++
        expNextTasksLoop start b cutoff current fuel (e + 1) cum'

/-- `ExponentialSchedule.get_next_tasks` with explicit loop fuel. -/
def expGetNextTasks (start : Int) (b : Nat) (now timespan : Int) (fuel : Nat) : List Int :=
  let days := timespan.fdiv 86400
  let cutoff := now + 86400 * days
  expNextTasksLoop start b cutoff now fuel 1 0

/-! ## Schedule interface and the Habit registry (`src/habit/habit.py`) -/

/-- The `Schedule` interface consumed by `Habit`: the anchor, the scale and
the two single-occurrence queries (the list queries are not used by the
streak engine). -/
structure SchedModel where
  start : Int
  scale : Int
  nextTask : Int → Int
  prevTask : Int → Option Int

/-- `HourlySchedule(start)` as a `SchedModel`. -/
def hourlySched (S : Int) : SchedModel :=
  ⟨S, hourlyGetScale, hourlyGetNextTask S, hourlyGetPreviousTask S⟩

/-- `DailySchedule(start)` as a `SchedModel`. -/
def dailySched (S : Int) : SchedModel :=
  ⟨S, dailyGetScale, dailyGetNextTask S, dailyGetPreviousTask S⟩

/-- `WeeklySchedule(start)` as a `SchedModel`. -/
def weeklySched (S : Int) : SchedModel :=
  ⟨S, weeklyGetScale, weeklyGetNextTask S, weeklyGetPreviousTask S⟩

/-- `MonthlySchedule(start)` as a `SchedModel`. -/
def monthlySched (S : Int) : SchedModel :=
  ⟨S, monthlyGetScale, monthlyGetNextTask S, monthlyGetPreviousTask S⟩

/-- `ExponentialSchedule(start, base)` as a `SchedModel`. -/
def expSched (S : Int) (b : Nat) : SchedModel :=
  ⟨S, expGetScale, expGetNextTask S b, expGetPreviousTask S b⟩

/-- `Habit._get_schedule`: the registry maps exactly the five strings
`hourly`, `daily`, `weekly`, `monthly`, `exponential_3` to schedule
instances and raises `ValueError` for anything else (including other
`exponential_N` identifiers). -/
def habitGetSchedule (schedule : String) (startedAt : Int) : Except String SchedModel :=
  if schedule = "hourly" then .ok (hourlySched startedAt)
  else if schedule = "daily" then .ok (dailySched startedAt)
  else if schedule = "weekly" then .ok (weeklySched startedAt)
  else if schedule = "monthly" then .ok (monthlySched startedAt)
  else if schedule = "exponential_3" then .ok (expSched startedAt 3)
  else .error ("Unknown schedule type: " ++ schedule)

/-! ## Logs, buckets and the aggregator (`src/habit/habit.py`, `bucket.py`, `log.py`) -/

/-- A `Log` row: `start`, nullable `end` (named `stop` here because `end` is
a Lean keyword) and `idle_time`. -/
structure LogEntry where
  start : Int
  stop : Option Int
  idle_time : Int

/-- A `Bucket` as built by `get_activity_buckets`: `start = MIN(log.start)`,
`stop = MAX(log.end)`, `net_duration = SUM(duration)`, `sessions = COUNT()`. -/
structure Bucket where
  start : Int
  stop : Option Int
  net_duration : Int
  sessions : Nat

/-- The per-log `duration` CASE expression of `get_activity_buckets`:
`0` when `end` is null, else `end - start - COALESCE(idle_time, 0)`
(no clamping at zero). -/
def logDuration (l : LogEntry) : Int :=
  match l.stop with
  | none => 0
  | some e => e - l.start - l.idle_time

/-- The grouping key of `get_activity_buckets`:
`CAST(strftime('%s', start) / size AS INTEGER)` — SQLite integer division,
which truncates toward zero (`Int.div`). -/
def bucketKey (size : Int) (l : LogEntry) : Int :=
  l.start.tdiv size

/-- Build the aggregate `Bucket` of one group of logs. -/
def bucketOfGroup (group : List LogEntry) : Bucket :=
  { start :=
      match group.map (·.start) with
      | [] => 0
      | x :: xs => xs.foldl min x
    stop :=
      match group.filterMap (·.stop) with
      | [] => none
      | x :: xs => some (xs.foldl max x)
    net_duration := (group.map logDuration).sum
    sessions := group.length }

/-- Insertion into a list of buckets kept descending by `start`. -/
def insBucketDesc (b : Bucket) : List Bucket → List Bucket
  | [] => [b]
  | c :: cs => if c.start ≤ b.start then b :: c :: cs else c :: insBucketDesc b cs

/-- Sort buckets descending by `start` (the query's `ORDER BY MIN(start) DESC`). -/
def sortBucketsDesc : List Bucket → List Bucket
  | [] => []
  | b :: bs => insBucketDesc b (sortBucketsDesc bs)

/-- `Habit.get_activity_buckets` with default (no) limit: group the habit's
logs by `bucketKey`, aggregate each group, order descending by start. -/
def getActivityBuckets (size : Int) (logs : List LogEntry) : List Bucket :=
  sortBucketsDesc
    (((logs.map (bucketKey size)).dedup).map
      (fun k => bucketOfGroup (logs.filter (fun l => bucketKey size l = k))))

/-- Modelled from the spec: the claimed bucket-aggregation total
`sum(max(0, log.end - log.start - log.idle_time) for log in logs if log.end
is not None)` — note the `max(0, ...)` clamp, which the source's SQL CASE
expression does not apply. -/
def specNetTotal (logs : List LogEntry) : Int :=
  (logs.filterMap (fun l => l.stop.map (fun e => max 0 (e - l.start - l.idle_time)))).sum

/-! ## Streak engine (`src/habit/habit.py`) -/

/-- Scan of `Habit._find_bucket_for_task` over the descending bucket list:
break as soon as `bucket.start < min_threshold`, return the first bucket
with `min_threshold <= bucket.start <= max_threshold`. -/
def findBucketGo (minT maxT : Int) : List Bucket → Option Bucket
  | [] => none
  | b :: rest =>
    if b.start < minT then none
    else if minT ≤ b.start ∧ b.start ≤ maxT then some b
    else findBucketGo minT maxT rest

/-- `Habit._find_bucket_for_task`: the window is
`[task - task % unit, task - task % unit + unit]` (upper edge inclusive). -/
def findBucketForTask (unit : Int) (buckets : List Bucket) (task : Int) : Option Bucket :=
  let minT := task - task % unit
  findBucketGo minT (minT + unit) buckets

/-- Python truthiness of `self.allocated_time` (`None` and `0` are falsy). -/
def allocTruthy : Option Int → Bool
  | none => false
  | some v => v != 0

/-- Python `self.allocated_time or 0`. -/
def allocOr0 : Option Int → Int
  | none => 0
  | some v => v

/-- `Habit._qualifies_for_streak`: a bucket in the first period after the
anchor always qualifies; otherwise it fails only when `allocated_time` is
truthy and `net_duration` is below it. -/
def qualifiesForStreak (alloc : Option Int) (S scale : Int) (b : Bucket) : Bool :=
  if b.start ≤ S + scale then true
  else if allocTruthy alloc && decide (b.net_duration < allocOr0 alloc) then false
  else true

/-- The `while` loop of `Habit.get_streak` (fuelled): count a task with a
qualifying bucket; otherwise `break` only when the task is strictly in the
past; always step to `get_previous_task(task)`. -/
def streakGo (M : SchedModel) (alloc : Option Int) (buckets : List Bucket) (now : Int) :
    Nat → Option Int → Nat
  | 0, _ => 0
  | _ + 1, none => 0
  | fuel + 1, some t =>
    if t < M.start then 0
    else
      match findBucketForTask M.scale buckets t with
      | some b =>
        if qualifiesForStreak alloc M.start M.scale b then
          1 + streakGo M alloc buckets now fuel (M.prevTask t)
        else if t < now then 0
        else streakGo M alloc buckets now fuel (M.prevTask t)
      | none =>
        if t < now then 0
        else streakGo M alloc buckets now fuel (M.prevTask t)

/-- Fuel bound for the streak walks: each `get_previous_task` step of every
variant decreases the task by at least the variant's scale. -/
def streakFuel (M : SchedModel) (t : Int) : Nat :=
  (t - M.start).toNat / M.scale.toNat + 2

/-- `Habit.get_streak`: 0 when there are no buckets, else walk backwards
from `get_next_task(now)`. -/
def getStreak (M : SchedModel) (alloc : Option Int) (buckets : List Bucket) (now : Int) : Nat :=
  if buckets.isEmpty then 0
  else
    let t0 := M.nextTask now
    streakGo M alloc buckets now (streakFuel M t0) (some t0)

/-- The `while` loop of `Habit.get_longest_streak` (fuelled): a qualifying
bucket extends the current run, anything else flushes it into the maximum. -/
def longGo (M : SchedModel) (alloc : Option Int) (buckets : List Bucket) :
    Nat → Option Int → Nat → Nat → Nat
  | 0, _, cur, lng => max cur lng
  | _ + 1, none, cur, lng => max cur lng
  | fuel + 1, some t, cur, lng =>
    if t < M.start then max cur lng
    else
      match findBucketForTask M.scale buckets t with
      | some b =>
        if qualifiesForStreak alloc M.start M.scale b then
          longGo M alloc buckets fuel (M.prevTask t) (cur + 1) lng
        else longGo M alloc buckets fuel (M.prevTask t) 0 (max cur lng)
      | none => longGo M alloc buckets fuel (M.prevTask t) 0 (max cur lng)

/-- `Habit.get_longest_streak`: 0 when there are no buckets, else walk
backwards from `get_next_task(buckets[0].start)`. -/
def getLongestStreak (M : SchedModel) (alloc : Option Int) (buckets : List Bucket) : Nat :=
  match buckets with
  | [] => 0
  | b0 :: _ =>
    let t0 := M.nextTask b0.start
    longGo M alloc buckets (streakFuel M t0) (some t0) 0 0

/-! ## Interface facts shared by the five schedule variants

`GoodSched M occ` packages, as a proposition, the facts the streak-engine
proof needs about one schedule variant: `occ` enumerates its occurrence
chain from the anchor, `prevTask` steps down that chain, `nextTask` lands
on it, and consecutive occurrences are at least one scale apart. -/

structure GoodSched (M : SchedModel) (occ : Nat → Int) : Prop where
  occ_zero : occ 0 = M.start
  scale_pos : 0 < M.scale
  occ_spacing : ∀ k, occ k + M.scale ≤ occ (k + 1)
  prev_occ_succ : ∀ k, M.prevTask (occ (k + 1)) = some (occ k)
  prev_occ_zero : M.prevTask (occ 0) = none
  next_mem : ∀ x, ∃ k, M.nextTask x = occ k
  next_prev_le : ∀ x k, M.nextTask x = occ (k + 1) → occ k ≤ x
  next_floor_le : ∀ x j, occ j - (occ j) % M.scale ≤ x → occ j ≤ M.nextTask x

/-- Whether the occurrence of index `j` has a qualifying bucket: the
per-task test performed by both streak walks. -/
def occQual (M : SchedModel) (alloc : Option Int) (buckets : List Bucket)
    (occ : Nat → Int) (j : Nat) : Bool :=
  match findBucketForTask M.scale buckets (occ j) with
  | some b => qualifiesForStreak alloc M.start M.scale b
  | none => false

/-- Length of the maximal all-qualifying run of occurrence indices ending
at `k` going downward. -/
def runLen (Q : Nat → Bool) : Nat → Nat
  | 0 => if Q 0 then 1 else 0
  | k + 1 => if Q (k + 1) then 1 + runLen Q k else 0

/-- The `get_streak` walk re-indexed over the occurrence chain, walking
from index `k` down to 0. -/
def sgoIdx (Q : Nat → Bool) (occ : Nat → Int) (now : Int) : Nat → Nat
  | 0 => if Q 0 then 1 else 0
  | k + 1 =>
    if Q (k + 1) then 1 + sgoIdx Q occ now k
    else if occ (k + 1) < now then 0
    else sgoIdx Q occ now k

/-- The `get_longest_streak` walk re-indexed over the occurrence chain. -/
def lgoIdx (Q : Nat → Bool) : Nat → Nat → Nat → Nat
  | 0, cur, lng => if Q 0 then max (cur + 1) lng else max cur lng
  | k + 1, cur, lng =>
    if Q (k + 1) then lgoIdx Q k (cur + 1) lng else lgoIdx Q k 0 (max cur lng)

/-! ## Session state machine (`src/session.py`) -/

/-- `SessionStatus` enum. -/
inductive SessionStatus where
  | active
  | paused
  | ended
  deriving DecidableEq, Repr

/-- The state fields of `Session` touched by `_pause` / `_resume` / `end`. -/
structure SessionState where
  state : SessionStatus
  pause_start_time : Option Int
  total_paused_time : Int
  transition_reason : Option String
  deriving DecidableEq, Repr

/-- `Session._pause`: only an ACTIVE session transitions; in any other state
the method does nothing. -/
def sessionPause (s : SessionState) (now : Int) (reason : Option String) : SessionState :=
  match s.state with
  | .active =>
    { s with state := .paused, pause_start_time := some now, transition_reason := reason }
  | _ => s

/-- `Session._resume`: only a PAUSED session transitions; the running pause
duration is folded into `total_paused_time`. -/
def sessionResume (s : SessionState) (now : Int) (reason : Option String) : SessionState :=
  match s.state with
  | .paused =>
    { state := .active
      pause_start_time := none
      total_paused_time :=
        match s.pause_start_time with
        | some p => s.total_paused_time + (now - p)
        | none => s.total_paused_time
      transition_reason := reason }
  | _ => s

end Pianist

namespace Pianist

/-! ## Theorems -/

/-- C1: the spec (and the repository's own tests
`test_get_next_task_same_day_after_start_time` / `test_get_next_task_at_start`)
require `DailySchedule(start=2023-01-01T12:00).get_next_task(2023-01-01T15:00)`
to be the earliest occurrence `>= from`, i.e. `2023-01-02T12:00`; the code
instead returns the same-day occurrence `2023-01-01T12:00`, which is already
in the past.  Here `start = 43200` (12:00 on day 0), `from = 54000` (15:00),
and the next day's occurrence is `129600`. -/
theorem c1_daily_get_next_task_returns_past_occurrence :
    dailyGetNextTask 43200 54000 = 43200 ∧ (43200 : Int) < 54000 ∧
      dailyGetNextTask 43200 54000 ≠ 129600 := by
  refine ⟨by decide, by decide, by decide⟩

/-- C4 counterexample: `MonthlySchedule.get_scale` returns `WEEK = 604800`,
not the claimed 30-day period `2592000` (the repo's own test
`test_get_scale` in `tests/schedule/test_monthly.py` expects `MONTH`), and
`ExponentialSchedule(base=3).get_scale` returns `DAY = 86400`, not the
claimed `(base-1)*86400 = 172800`. -/
theorem c4_scale_counterexample :
    monthlyGetScale = 604800 ∧ monthlyGetScale ≠ 2592000 ∧
      expGetScale = 86400 ∧ expGetScale ≠ (3 - 1) * 86400 := by
  refine ⟨by decide, by decide, by decide, by decide⟩

/-- C4 amended: the per-variant `get_scale` constants as the code defines
them: Hourly 3600, Daily 86400, Weekly 604800, Monthly 604800 (the source
returns `WEEK`), Exponential 86400 for every base. -/
theorem c4_scale_amended :
    hourlyGetScale = 3600 ∧ dailyGetScale = 86400 ∧ weeklyGetScale = 604800 ∧
      monthlyGetScale = 604800 ∧ expGetScale = 86400 := by
  refine ⟨by decide, by decide, by decide, by decide, by decide⟩

/-- C9: pausing an already-PAUSED session is a no-op — the state stays
PAUSED and `pause_start_time` and `transition_reason` keep the values set by
the first pause (the whole record is unchanged). -/
theorem c9_pause_while_paused_noop (s : SessionState) (now : Int) (reason : Option String)
    (h : s.state = SessionStatus.paused) : sessionPause s now reason = s := by
  unfold sessionPause
  rw [h]

/-- C9 witness: a concrete paused session is unchanged by a second pause. -/
theorem c9_pause_while_paused_noop_witness :
    sessionPause ⟨SessionStatus.paused, some 100, 7, some "WindowTracker"⟩ 250 (some "IoTracker")
        = ⟨SessionStatus.paused, some 100, 7, some "WindowTracker"⟩ :=
  c9_pause_while_paused_noop ⟨SessionStatus.paused, some 100, 7, some "WindowTracker"⟩ 250
    (some "IoTracker") rfl

/-- Helper: `dailyGetNextTask` is fixed on every occurrence `start + k` days. -/
theorem daily_next_fixed (S k : Int) (hk : 0 ≤ k) :
    dailyGetNextTask S (S + 86400 * k) = S + 86400 * k := by
  unfold dailyGetNextTask
  rw [if_neg (by omega), add_sub_cancel_left, Int.mul_fdiv_cancel_left _ (by norm_num),
    if_pos le_rfl]

/-- Helper: every value of `dailyGetNextTask` is an occurrence `start + k` days,
`k >= 0`. -/
theorem daily_next_shape (S x : Int) :
    ∃ k : Int, dailyGetNextTask S x = S + 86400 * k ∧ 0 ≤ k := by
  rcases lt_or_le x S with hx | hx
  · exact ⟨0, by unfold dailyGetNextTask; rw [if_pos hx]; ring, le_rfl⟩
  · have hd : 0 ≤ (x - S).fdiv 86400 :=
      Int.fdiv_nonneg (by omega) (by norm_num)
    unfold dailyGetNextTask
    rw [if_neg (not_lt.mpr hx)]
    by_cases hc : dateOf x ≤ dateOf (S + 86400 * ((x - S).fdiv 86400))
    · exact ⟨_, by rw [if_pos hc], hd⟩
    · exact ⟨_, by rw [if_neg hc], by omega⟩

/-- Helper: `monthlyGetNextTask` is fixed on every occurrence `start + 30*k` days. -/
theorem monthly_next_fixed (S k : Int) (hk : 0 ≤ k) :
    monthlyGetNextTask S (S + 2592000 * k) = S + 2592000 * k := by
  have hdd : ((S + 2592000 * k - S).fdiv 86400).fdiv 30 = k := by
    rw [add_sub_cancel_left, show (2592000 : Int) * k = 86400 * (30 * k) by ring,
      Int.mul_fdiv_cancel_left _ (by norm_num), Int.mul_fdiv_cancel_left _ (by norm_num)]
  unfold monthlyGetNextTask
  rw [if_neg (by omega), hdd, if_neg (lt_irrefl _)]

/-- Helper: every value of `monthlyGetNextTask` is an occurrence
`start + 30*k` days, `k >= 0`. -/
theorem monthly_next_shape (S x : Int) :
    ∃ k : Int, monthlyGetNextTask S x = S + 2592000 * k ∧ 0 ≤ k := by
  rcases lt_or_le x S with hx | hx
  · exact ⟨0, by unfold monthlyGetNextTask; rw [if_pos hx]; ring, le_rfl⟩
  · have hd : 0 ≤ ((x - S).fdiv 86400).fdiv 30 :=
      Int.fdiv_nonneg (Int.fdiv_nonneg (by omega) (by norm_num)) (by norm_num)
    unfold monthlyGetNextTask
    rw [if_neg (not_lt.mpr hx)]
    by_cases hc : S + 2592000 * (((x - S).fdiv 86400).fdiv 30) < x
    · exact ⟨_, by rw [if_pos hc], by omega⟩
    · exact ⟨_, by rw [if_neg hc], hd⟩

/-- Helper: `dailyGetNextTask` is idempotent. -/
theorem daily_next_idem (S x : Int) :
    dailyGetNextTask S (dailyGetNextTask S x) = dailyGetNextTask S x := by
  obtain ⟨k, he, hk⟩ := daily_next_shape S x
  rw [he, daily_next_fixed S k hk]

/-- Helper: `monthlyGetNextTask` is idempotent. -/
theorem monthly_next_idem (S x : Int) :
    monthlyGetNextTask S (monthlyGetNextTask S x) = monthlyGetNextTask S x := by
  obtain ⟨k, he, hk⟩ := monthly_next_shape S x
  rw [he, monthly_next_fixed S k hk]

/-- Helper: `hourlyGetNextTask` applied to its own result advances by
exactly one hour. -/
theorem hourly_next_next (S x : Int) :
    hourlyGetNextTask S (hourlyGetNextTask S x) = hourlyGetNextTask S x + 3600 := by
  rcases lt_or_le x S with hx | hx
  · unfold hourlyGetNextTask
    rw [if_pos hx, if_neg (lt_irrefl S), sub_self, Int.zero_fdiv]
    ring
  · have hh : 0 ≤ (x - S).fdiv 3600 := Int.fdiv_nonneg (by omega) (by norm_num)
    unfold hourlyGetNextTask
    rw [if_neg (not_lt.mpr hx), if_neg (by omega), add_sub_cancel_left,
      Int.mul_fdiv_cancel_left _ (by norm_num)]
    ring

/-- Helper: `weeklyGetNextTask` applied to its own result advances by
exactly one week. -/
theorem weekly_next_next (S x : Int) :
    weeklyGetNextTask S (weeklyGetNextTask S x) = weeklyGetNextTask S x + 604800 := by
  rcases lt_or_le x S with hx | hx
  · unfold weeklyGetNextTask
    rw [if_pos hx, if_neg (lt_irrefl S), sub_self, Int.zero_fdiv, Int.zero_fdiv]
    ring
  · have hw : 0 ≤ ((x - S).fdiv 86400).fdiv 7 :=
      Int.fdiv_nonneg (Int.fdiv_nonneg (by omega) (by norm_num)) (by norm_num)
    unfold weeklyGetNextTask
    rw [if_neg (not_lt.mpr hx), if_neg (by omega), add_sub_cancel_left,
      show (604800 : Int) * (((x - S).fdiv 86400).fdiv 7 + 1)
          = 86400 * (7 * (((x - S).fdiv 86400).fdiv 7 + 1)) by ring,
      Int.mul_fdiv_cancel_left _ (by norm_num), Int.mul_fdiv_cancel_left _ (by norm_num)]
    ring

/-- Helper: with enough fuel, the cumulative loop of
`ExponentialSchedule.get_next_task` finishes strictly above `days_diff`
(for any positive base). -/
theorem expNextLoop_gt (b : Nat) (hb : 1 ≤ b) (dd : Int) :
    ∀ (fuel e cum : Nat), (dd + 1 - cum).toNat ≤ fuel →
      dd < (expNextLoop b dd fuel e cum : Int) := by
  intro fuel
  induction fuel with
  | zero =>
    intro e cum h
    simp only [expNextLoop]
    omega
  | succ fuel ih =>
    intro e cum h
    simp only [expNextLoop]
    split_ifs with hc
    · have hpow : 1 ≤ b ^ e := Nat.one_le_pow e b (by omega)
      exact ih (e + 1) (cum + b ^ e) (by omega)
    · omega

/-- Helper: `expGetNextTask` strictly advances on its own result. -/
theorem exp_next_progress (S : Int) (b : Nat) (hb : 1 ≤ b) (x : Int) :
    expGetNextTask S b x < expGetNextTask S b (expGetNextTask S b x) := by
  rcases lt_or_le x S with hx | hx
  · have hr : expGetNextTask S b x = S := by
      unfold expGetNextTask; rw [if_pos hx]
    rw [hr]
    unfold expGetNextTask
    rw [if_neg (lt_irrefl S), sub_self, Int.zero_fdiv]
    have hgt := expNextLoop_gt b hb 0 ((0 : Int).toNat + 2) 1 0 (by omega)
    omega
  · have hdd : 0 ≤ (x - S).fdiv 86400 := Int.fdiv_nonneg (by omega) (by norm_num)
    have hgt := expNextLoop_gt b hb ((x - S).fdiv 86400)
      (((x - S).fdiv 86400).toNat + 2) 1 0 (by omega)
    have hr : expGetNextTask S b x
        = S + 86400 * (expNextLoop b ((x - S).fdiv 86400)
            (((x - S).fdiv 86400).toNat + 2) 1 0 : Int) := by
      unfold expGetNextTask; rw [if_neg (not_lt.mpr hx)]
    rw [hr]
    unfold expGetNextTask
    rw [if_neg (by omega), add_sub_cancel_left, Int.mul_fdiv_cancel_left _ (by norm_num),
      Int.toNat_natCast]
    have hgt2 := expNextLoop_gt b hb
      (expNextLoop b ((x - S).fdiv 86400) (((x - S).fdiv 86400).toNat + 2) 1 0 : Int)
      ((expNextLoop b ((x - S).fdiv 86400) (((x - S).fdiv 86400).toNat + 2) 1 0) + 2) 1 0
      (by omega)
    omega

/-- C3 counterexample: for an hourly schedule anchored at `start = 0`,
`get_next_task(1800) = 3600` but `get_next_task(3600) = 7200`, so
`get_next_task` is not idempotent on its own result. -/
theorem c3_counterexample :
    hourlyGetNextTask 0 1800 = 3600 ∧
      hourlyGetNextTask 0 (hourlyGetNextTask 0 1800) = 7200 ∧ (7200 : Int) ≠ 3600 := by
  refine ⟨by decide, by decide, by decide⟩

/-- C3 amended: `get_next_task` applied to its own result is idempotent for
the daily and monthly variants only; for the hourly and weekly variants it
advances by exactly one period (3600 s / 604800 s respectively), and for the
exponential variant (any base >= 1) it advances strictly to the next
occurrence. -/
theorem c3_next_task_amended :
    (∀ S x : Int, dailyGetNextTask S (dailyGetNextTask S x) = dailyGetNextTask S x) ∧
    (∀ S x : Int, monthlyGetNextTask S (monthlyGetNextTask S x) = monthlyGetNextTask S x) ∧
    (∀ S x : Int, hourlyGetNextTask S (hourlyGetNextTask S x) = hourlyGetNextTask S x + 3600) ∧
    (∀ S x : Int,
      weeklyGetNextTask S (weeklyGetNextTask S x) = weeklyGetNextTask S x + 604800) ∧
    (∀ (S x : Int) (b : Nat), 1 ≤ b →
      expGetNextTask S b x < expGetNextTask S b (expGetNextTask S b x)) :=
  ⟨daily_next_idem, monthly_next_idem, hourly_next_next, weekly_next_next,
    fun S x b hb => exp_next_progress S b hb x⟩

/-- C3 witness: the amended statement at concrete inputs, including the
exponential part with base 3. -/
theorem c3_next_task_amended_witness :
    dailyGetNextTask 0 (dailyGetNextTask 0 5000) = dailyGetNextTask 0 5000 ∧
      expGetNextTask 0 3 5 < expGetNextTask 0 3 (expGetNextTask 0 3 5) :=
  ⟨c3_next_task_amended.1 0 5000, c3_next_task_amended.2.2.2.2 0 5 3 (by norm_num)⟩

/-- C2 counterexample: for `ExponentialSchedule(start, base=2)` and
`from_dt = start + 1 hour` (here `start = 0`, `from_dt = 3600`), the
`days_diff = 0` loop never runs and `get_previous_task` returns
`start - base^0 days = start - 86400`, an "occurrence" strictly before the
start anchor. -/
theorem c2_counterexample :
    expGetPreviousTask 0 2 3600 = some (-86400) ∧ (-86400 : Int) < 0 := by
  refine ⟨by decide, by decide⟩

/-- Helper: `hourlyGetNextTask` never falls before the anchor. -/
theorem hourly_next_ge (S x : Int) : S ≤ hourlyGetNextTask S x := by
  unfold hourlyGetNextTask
  rcases lt_or_le x S with hx | hx
  · rw [if_pos hx]
  · rw [if_neg (not_lt.mpr hx)]
    have h := Int.fdiv_nonneg (show (0 : Int) ≤ x - S by omega)
      (show (0 : Int) ≤ 3600 by norm_num)
    omega

/-- Helper: `dailyGetNextTask` never falls before the anchor. -/
theorem daily_next_ge (S x : Int) : S ≤ dailyGetNextTask S x := by
  obtain ⟨k, he, hk⟩ := daily_next_shape S x
  omega

/-- Helper: `weeklyGetNextTask` never falls before the anchor. -/
theorem weekly_next_ge (S x : Int) : S ≤ weeklyGetNextTask S x := by
  unfold weeklyGetNextTask
  rcases lt_or_le x S with hx | hx
  · rw [if_pos hx]
  · rw [if_neg (not_lt.mpr hx)]
    have h : 0 ≤ ((x - S).fdiv 86400).fdiv 7 :=
      Int.fdiv_nonneg (Int.fdiv_nonneg (by omega) (by norm_num)) (by norm_num)
    omega

/-- Helper: `monthlyGetNextTask` never falls before the anchor. -/
theorem monthly_next_ge (S x : Int) : S ≤ monthlyGetNextTask S x := by
  obtain ⟨k, he, hk⟩ := monthly_next_shape S x
  omega

/-- Helper: `expGetNextTask` never falls before the anchor (any base). -/
theorem exp_next_ge (S : Int) (b : Nat) (x : Int) : S ≤ expGetNextTask S b x := by
  unfold expGetNextTask
  rcases lt_or_le x S with hx | hx
  · rw [if_pos hx]
  · rw [if_neg (not_lt.mpr hx)]
    have h : (0 : Int) ≤ (expNextLoop b ((x - S).fdiv 86400)
        (((x - S).fdiv 86400).toNat + 2) 1 0 : Int) := Int.natCast_nonneg _
    omega

/-- Helper: `hourlyGetPreviousTask` results never fall before the anchor. -/
theorem hourly_prev_ge (S x p : Int) (h : hourlyGetPreviousTask S x = some p) : S ≤ p := by
  unfold hourlyGetPreviousTask at h
  split_ifs at h with h1 h2
  · have h3 : 0 ≤ (x - S).fdiv 3600 := Int.fdiv_nonneg (by omega) (by norm_num)
    injection h with h4
    omega

/-- Helper: `dailyGetPreviousTask` results never fall before the anchor. -/
theorem daily_prev_ge (S x p : Int) (h : dailyGetPreviousTask S x = some p) : S ≤ p := by
  unfold dailyGetPreviousTask at h
  split_ifs at h with h1 h2
  · have h3 : 0 ≤ (x - S).fdiv 86400 := Int.fdiv_nonneg (by omega) (by norm_num)
    injection h with h4
    omega

/-- Helper: `weeklyGetPreviousTask` results never fall before the anchor. -/
theorem weekly_prev_ge (S x p : Int) (h : weeklyGetPreviousTask S x = some p) : S ≤ p := by
  unfold weeklyGetPreviousTask at h
  split_ifs at h with h1 h2
  · have h3 : 0 ≤ ((x - S).fdiv 86400).fdiv 7 :=
      Int.fdiv_nonneg (Int.fdiv_nonneg (by omega) (by norm_num)) (by norm_num)
    injection h with h4
    omega

/-- Helper: `monthlyGetPreviousTask` results never fall before the anchor. -/
theorem monthly_prev_ge (S x p : Int) (h : monthlyGetPreviousTask S x = some p) : S ≤ p := by
  unfold monthlyGetPreviousTask at h
  split_ifs at h with h1 h2
  · have h3 : 0 ≤ ((x - S).fdiv 86400).fdiv 30 :=
      Int.fdiv_nonneg (Int.fdiv_nonneg (by omega) (by norm_num)) (by norm_num)
    injection h with h4
    omega

/-- Helper: elements of the daily `get_next_tasks` loop are `>= start`. -/
theorem dailyNextTasksLoop_ge (S : Int) :
    ∀ (n : Nat) (cur y : Int), y ∈ dailyNextTasksLoop S n cur → S ≤ y := by
  intro n
  induction n with
  | zero => intro cur y hy; simp [dailyNextTasksLoop] at hy
  | succ n ih =>
    intro cur y hy
    simp only [dailyNextTasksLoop, List.mem_cons] at hy
    rcases hy with rfl | hy
    · exact daily_next_ge S cur
    · exact ih _ y hy

/-- Helper: elements of the weekly `get_next_tasks` loop are `>= start`. -/
theorem weeklyNextTasksLoop_ge (S : Int) :
    ∀ (n : Nat) (cur y : Int), y ∈ weeklyNextTasksLoop S n cur → S ≤ y := by
  intro n
  induction n with
  | zero => intro cur y hy; simp [weeklyNextTasksLoop] at hy
  | succ n ih =>
    intro cur y hy
    simp only [weeklyNextTasksLoop, List.mem_cons] at hy
    rcases hy with rfl | hy
    · exact weekly_next_ge S cur
    · exact ih _ y hy

/-- Helper: elements of the monthly `get_next_tasks` loop are `>= start`. -/
theorem monthlyNextTasksLoop_ge (S : Int) :
    ∀ (n : Nat) (cur y : Int), y ∈ monthlyNextTasksLoop S n cur → S ≤ y := by
  intro n
  induction n with
  | zero => intro cur y hy; simp [monthlyNextTasksLoop] at hy
  | succ n ih =>
    intro cur y hy
    simp only [monthlyNextTasksLoop, List.mem_cons] at hy
    rcases hy with rfl | hy
    · exact monthly_next_ge S cur
    · exact ih _ y hy

/-- Helper: elements of the exponential `get_next_tasks` loop are `>= start`
(they are `start + cumulative` days for a nonnegative cumulative count). -/
theorem expNextTasksLoop_ge (S : Int) (b : Nat) (cutoff current : Int) :
    ∀ (fuel e cum : Nat) (y : Int),
      y ∈ expNextTasksLoop S b cutoff current fuel e cum → S ≤ y := by
  intro fuel
  induction fuel with
  | zero => intro e cum y hy; simp [expNextTasksLoop] at hy
  | succ fuel ih =>
    intro e cum y hy
    simp only [expNextTasksLoop] at hy
    split_ifs at hy with h1 h2
    · simp at hy
    · simp only [List.mem_append, List.mem_singleton] at hy
      rcases hy with rfl | hy
      · have : (0 : Int) ≤ ((cum + b ^ e : Nat) : Int) := Int.natCast_nonneg _
        omega
      · exact ih _ _ y hy
    · simp only [List.nil_append] at hy
      exact ih _ _ y hy

/-- Helper: elements of the weekly `get_previous_tasks` loop are `>= start`. -/
theorem weeklyPrevTasksLoop_ge (S : Int) :
    ∀ (n : Nat) (cur y : Int), y ∈ weeklyPrevTasksLoop S n cur → S ≤ y := by
  intro n
  induction n with
  | zero => intro cur y hy; simp [weeklyPrevTasksLoop] at hy
  | succ n ih =>
    intro cur y hy
    rw [weeklyPrevTasksLoop] at hy
    rcases hm : weeklyGetPreviousTask S cur with _ | p
    · rw [hm] at hy
      exact ih _ y hy
    · rw [hm] at hy
      rcases List.mem_cons.mp hy with rfl | hy
      · exact weekly_prev_ge S cur y hm
      · exact ih _ y hy

/-- Helper: elements of the monthly `get_previous_tasks` loop are `>= start`. -/
theorem monthlyPrevTasksLoop_ge (S : Int) :
    ∀ (n : Nat) (cur y : Int), y ∈ monthlyPrevTasksLoop S n cur → S ≤ y := by
  intro n
  induction n with
  | zero => intro cur y hy; simp [monthlyPrevTasksLoop] at hy
  | succ n ih =>
    intro cur y hy
    rw [monthlyPrevTasksLoop] at hy
    rcases hm : monthlyGetPreviousTask S cur with _ | p
    · rw [hm] at hy
      simp at hy
    · rw [hm] at hy
      rcases List.mem_cons.mp hy with rfl | hy
      · exact monthly_prev_ge S cur y hm
      · exact ih _ y hy

/-- Helper: every datetime element produced by the hourly
`get_previous_tasks` loop (when it does not crash) is `>= start`. -/
theorem hourlyPrevTasksLoop_ge (S : Int) :
    ∀ (n : Nat) (cur : Option Int) (l : List (Option Int)),
      hourlyPrevTasksLoop S n cur = some l →
        ∀ o ∈ l, ∀ p : Int, o = some p → S ≤ p := by
  intro n
  induction n with
  | zero =>
    intro cur l hl o ho p hp
    simp only [hourlyPrevTasksLoop] at hl
    injection hl with h
    subst h
    simp at ho
  | succ n ih =>
    intro cur l hl o ho p hp
    match cur with
    | none => simp [hourlyPrevTasksLoop] at hl
    | some c =>
      simp only [hourlyPrevTasksLoop, Option.map_eq_some'] at hl
      obtain ⟨l', hl', rfl⟩ := hl
      rcases List.mem_cons.mp ho with rfl | ho
      · exact hourly_prev_ge S c p hp
      · exact ih _ l' hl' o ho p hp

/-- Helper: every datetime element produced by the daily
`get_previous_tasks` loop (when it does not crash) is `>= start`. -/
theorem dailyPrevTasksLoop_ge (S : Int) :
    ∀ (n : Nat) (cur : Option Int) (l : List (Option Int)),
      dailyPrevTasksLoop S n cur = some l →
        ∀ o ∈ l, ∀ p : Int, o = some p → S ≤ p := by
  intro n
  induction n with
  | zero =>
    intro cur l hl o ho p hp
    simp only [dailyPrevTasksLoop] at hl
    injection hl with h
    subst h
    simp at ho
  | succ n ih =>
    intro cur l hl o ho p hp
    match cur with
    | none => simp [dailyPrevTasksLoop] at hl
    | some c =>
      simp only [dailyPrevTasksLoop, Option.map_eq_some'] at hl
      obtain ⟨l', hl', rfl⟩ := hl
      rcases List.mem_cons.mp ho with rfl | ho
      · exact daily_prev_ge S c p hp
      · exact ih _ l' hl' o ho p hp

/-- C2 amended: every occurrence returned by `get_next_task` (all variants),
by `get_previous_task` (hourly/daily/weekly/monthly), by `get_next_tasks`
(daily/weekly/monthly/exponential; the hourly one returns no list at all)
and by `get_previous_tasks` (all variants except the exponential one) is
`>= start`.  The exceptions are exactly the two cited exponential queries:
`get_previous_task` can return `start - 1 day` (the C2 counterexample) and
`get_previous_tasks` produces dates strictly before `start`. -/
theorem c2_start_invariant_amended :
    (∀ S x : Int,
      S ≤ hourlyGetNextTask S x ∧ S ≤ dailyGetNextTask S x ∧
        S ≤ weeklyGetNextTask S x ∧ S ≤ monthlyGetNextTask S x) ∧
    (∀ (S : Int) (b : Nat) (x : Int), S ≤ expGetNextTask S b x) ∧
    (∀ S x p : Int, hourlyGetPreviousTask S x = some p → S ≤ p) ∧
    (∀ S x p : Int, dailyGetPreviousTask S x = some p → S ≤ p) ∧
    (∀ S x p : Int, weeklyGetPreviousTask S x = some p → S ≤ p) ∧
    (∀ S x p : Int, monthlyGetPreviousTask S x = some p → S ≤ p) ∧
    (∀ S now ts y : Int, y ∈ dailyGetNextTasks S now ts → S ≤ y) ∧
    (∀ S now ts y : Int, y ∈ weeklyGetNextTasks S now ts → S ≤ y) ∧
    (∀ S now ts y : Int, y ∈ monthlyGetNextTasks S now ts → S ≤ y) ∧
    (∀ (S : Int) (b : Nat) (now ts : Int) (fuel : Nat) (y : Int),
      y ∈ expGetNextTasks S b now ts fuel → S ≤ y) ∧
    (∀ S now ts y : Int, y ∈ weeklyGetPreviousTasks S now ts → S ≤ y) ∧
    (∀ S now ts y : Int, y ∈ monthlyGetPreviousTasks S now ts → S ≤ y) ∧
    (∀ (S now ts : Int) (l : List (Option Int)), hourlyGetPreviousTasks S now ts = some l →
      ∀ o ∈ l, ∀ p : Int, o = some p → S ≤ p) ∧
    (∀ (S now ts : Int) (l : List (Option Int)), dailyGetPreviousTasks S now ts = some l →
      ∀ o ∈ l, ∀ p : Int, o = some p → S ≤ p) := by
  refine ⟨fun S x => ⟨hourly_next_ge S x, daily_next_ge S x, weekly_next_ge S x,
      monthly_next_ge S x⟩,
    fun S b x => exp_next_ge S b x,
    hourly_prev_ge, daily_prev_ge, weekly_prev_ge, monthly_prev_ge,
    fun S now ts y hy => dailyNextTasksLoop_ge S _ now y hy,
    fun S now ts y hy => weeklyNextTasksLoop_ge S _ now y hy,
    fun S now ts y hy => monthlyNextTasksLoop_ge S _ now y hy,
    fun S b now ts fuel y hy => expNextTasksLoop_ge S b _ now fuel 1 0 y hy,
    fun S now ts y hy => weeklyPrevTasksLoop_ge S _ now y hy,
    fun S now ts y hy => monthlyPrevTasksLoop_ge S _ now y hy,
    fun S now ts l hl => hourlyPrevTasksLoop_ge S _ (some now) l hl,
    fun S now ts l hl => dailyPrevTasksLoop_ge S _ (some now) l hl⟩

/-- C2 witness: the amended statement at concrete inputs, discharging the
`some`-result and membership hypotheses there. -/
theorem c2_start_invariant_amended_witness :
    (0 : Int) ≤ hourlyGetNextTask 0 5 ∧ (0 : Int) ≤ 3600 ∧ (0 : Int) ≤ 0 :=
  ⟨(c2_start_invariant_amended.1 0 5).1,
    c2_start_invariant_amended.2.2.1 0 7200 3600 (by decide),
    c2_start_invariant_amended.2.2.2.2.2.2.1 0 100 86400 0 (by decide)⟩

/-- Helper: inserting into a descending bucket list is a permutation of
consing. -/
theorem insBucketDesc_perm (b : Bucket) :
    ∀ l : List Bucket, (insBucketDesc b l).Perm (b :: l) := by
  intro l
  induction l with
  | nil => exact List.Perm.refl _
  | cons c cs ih =>
    simp only [insBucketDesc]
    split_ifs with hc
    · exact List.Perm.refl _
    · exact (ih.cons c).trans (List.Perm.swap b c cs)

/-- Helper: descending bucket sort is a permutation. -/
theorem sortBucketsDesc_perm : ∀ l : List Bucket, (sortBucketsDesc l).Perm l := by
  intro l
  induction l with
  | nil => exact List.Perm.refl _
  | cons b bs ih => exact (insBucketDesc_perm b (sortBucketsDesc bs)).trans (ih.cons b)

/-- Helper: a filter and its complement split a mapped sum. -/
theorem sum_map_filter_not (f : LogEntry → Int) (p : LogEntry → Bool) :
    ∀ l : List LogEntry,
      ((l.filter p).map f).sum + ((l.filter (fun x => ! p x)).map f).sum = (l.map f).sum := by
  intro l
  induction l with
  | nil => simp
  | cons x xs ih =>
    by_cases hx : p x <;> simp [List.filter_cons, hx] <;> omega

/-- Helper: filtering for key `k'` is unaffected by first removing key `k`
when `k' ≠ k`. -/
theorem filter_of_filter_ne (key : LogEntry → Int) (k k' : Int) (h : ¬ k' = k) :
    ∀ logs : List LogEntry,
      ((logs.filter (fun l => ! decide (key l = k))).filter (fun l => key l = k'))
        = logs.filter (fun l => key l = k') := by
  intro logs
  induction logs with
  | nil => rfl
  | cons x xs ih =>
    by_cases hx : key x = k
    · have hx' : ¬ (key x = k') := fun hh => h (by omega)
      have hkk : ¬ (k = k') := fun hh => h hh.symm
      simp [List.filter_cons, hx, hx', hkk, ih]
    · have e1 : (decide (key x = k)) = false := decide_eq_false hx
      simp [List.filter_cons, e1, ih]

/-- Helper: summing the per-group mapped sums over a duplicate-free list of
keys covering all of `logs` gives the total mapped sum. -/
theorem sum_over_groups (f key : LogEntry → Int) :
    ∀ ks : List Int, ks.Nodup → ∀ logs : List LogEntry, (∀ l ∈ logs, key l ∈ ks) →
      (ks.map (fun k => ((logs.filter (fun l => key l = k)).map f).sum)).sum
        = (logs.map f).sum := by
  intro ks
  induction ks with
  | nil =>
    intro _ logs hmem
    cases logs with
    | nil => simp
    | cons x xs => exact absurd (hmem x (List.mem_cons_self x xs)) (List.not_mem_nil _)
  | cons k ks ih =>
    intro hnd logs hmem
    obtain ⟨hk, hnd'⟩ := List.nodup_cons.mp hnd
    simp only [List.map_cons, List.sum_cons]
    have hmap : ks.map (fun k' => ((logs.filter (fun l => key l = k')).map f).sum)
        = ks.map (fun k' =>
            (((logs.filter (fun l => ! decide (key l = k))).filter
              (fun l => key l = k')).map f).sum) := by
      apply List.map_congr_left
      intro k' hk'
      rw [filter_of_filter_ne key k k' (fun h => hk (h ▸ hk'))]
    have hmem' : ∀ l ∈ logs.filter (fun l => ! decide (key l = k)), key l ∈ ks := by
      intro l hl
      obtain ⟨hl1, hl2⟩ := List.mem_filter.mp hl
      have := hmem l hl1
      simp only [List.mem_cons] at this
      rcases this with heq | hin
      · simp [heq] at hl2
      · exact hin
    rw [hmap, ih hnd' _ hmem']
    exact sum_map_filter_not f _ logs

/-- C5 counterexample: a single log with `idle_time` exceeding its span
(`start=0`, `end=10`, `idle=20`) produces a bucket total of `-10`, while the
claimed clamped total `max(0, end-start-idle)` is `0`. -/
theorem c5_counterexample :
    ((getActivityBuckets 3600 [⟨0, some 10, 20⟩]).map Bucket.net_duration).sum = -10 ∧
      specNetTotal [⟨0, some 10, 20⟩] = 0 ∧ (-10 : Int) ≠ 0 := by
  refine ⟨by decide, by decide, by decide⟩

/-- C5 amended: for every bucket width and every set of logs, the sum of
`net_duration` over all buckets equals the sum over logs with non-null end
of `end - start - idle_time` — without the claimed clamping at zero; a log
with null end contributes exactly 0 (`logDuration`). -/
theorem c5_bucket_sum_amended (size : Int) (hs : 0 < size) (logs : List LogEntry) :
    ((getActivityBuckets size logs).map Bucket.net_duration).sum
      = (logs.map logDuration).sum := by
  unfold getActivityBuckets
  rw [((sortBucketsDesc_perm _).map Bucket.net_duration).sum_eq, List.map_map]
  exact sum_over_groups logDuration (bucketKey size) _ (List.nodup_dedup _) logs
    (fun l hl => List.mem_dedup.mpr (List.mem_map_of_mem _ hl))

/-- C5 witness: the amended equation at a concrete bucket width and log
list (two logs in one bucket, one unterminated log in another). -/
theorem c5_bucket_sum_amended_witness :
    ((getActivityBuckets 3600 [⟨0, some 100, 10⟩, ⟨50, some 90, 0⟩, ⟨7200, none, 5⟩]).map
        Bucket.net_duration).sum
      = ([⟨0, some 100, 10⟩, ⟨50, some 90, 0⟩, ⟨7200, none, 5⟩].map logDuration).sum :=
  c5_bucket_sum_amended 3600 (by norm_num) _

/-- Helper: for a positive divisor, `b * (a.fdiv b)` is at most `a`. -/
theorem mul_fdiv_le_self (a b : Int) (hb : 0 < b) : b * (a.fdiv b) ≤ a := by
  rw [Int.fdiv_eq_ediv _ (le_of_lt hb)]
  have h1 := Int.emod_nonneg a (ne_of_gt hb)
  have h2 := Int.emod_def a b
  omega

/-- Helper: for a positive divisor, `a` is below `b * (a.fdiv b + 1)`. -/
theorem lt_mul_fdiv_add_one (a b : Int) (hb : 0 < b) : a < b * (a.fdiv b + 1) := by
  rw [Int.fdiv_eq_ediv _ (le_of_lt hb)]
  have h1 := Int.emod_lt_of_pos a hb
  have h2 := Int.emod_def a b
  have h3 : b * (a / b + 1) = b * (a / b) + b := by ring
  omega

/-- Helper: two points of the same width-`u` window share its lower edge. -/
theorem window_eq_of_between (u a x : Int) (hu : 0 < u)
    (h1 : a - a % u ≤ x) (h2 : x ≤ a) : x - x % u = a - a % u := by
  have ha1 : 0 ≤ a % u := Int.emod_nonneg a (ne_of_gt hu)
  have ha2 : a % u < u := Int.emod_lt_of_pos a hu
  have hd := Int.emod_def a u
  have hr1 : 0 ≤ x - u * (a / u) := by omega
  have hr2 : x - u * (a / u) < u := by omega
  have hx : x % u = x - u * (a / u) := by
    conv_lhs => rw [show x = (x - u * (a / u)) + u * (a / u) by ring]
    rw [Int.add_mul_emod_self_left, Int.emod_eq_of_lt hr1 hr2]
  omega

/-- Helper: the occurrence chain of a good schedule is strictly increasing. -/
theorem goodSched_strictMono (M : SchedModel) (occ : Nat → Int) (G : GoodSched M occ) :
    StrictMono occ := by
  apply strictMono_nat_of_lt_succ
  intro k
  have h1 := G.occ_spacing k
  have h2 := G.scale_pos
  omega

/-- Helper: every occurrence of a good schedule is at or after the anchor. -/
theorem goodSched_start_le (M : SchedModel) (occ : Nat → Int) (G : GoodSched M occ) (k : Nat) :
    M.start ≤ occ k := by
  have := (goodSched_strictMono M occ G).monotone (Nat.zero_le k)
  rw [G.occ_zero] at this
  exact this

/-- Helper: the `k`-th occurrence is at least `k` scales after the anchor. -/
theorem goodSched_occ_lower (M : SchedModel) (occ : Nat → Int) (G : GoodSched M occ) :
    ∀ k : Nat, M.start + k * M.scale ≤ occ k := by
  intro k
  induction k with
  | zero => simp [G.occ_zero]
  | succ k ih =>
    have h1 := G.occ_spacing k
    push_cast at ih ⊢
    linarith

/-- Helper: the fuel bound used by the streak walks covers the whole chain
below occurrence `k`. -/
theorem goodSched_fuel (M : SchedModel) (occ : Nat → Int) (G : GoodSched M occ) (k : Nat) :
    k + 2 ≤ streakFuel M (occ k) := by
  unfold streakFuel
  have hlow := goodSched_occ_lower M occ G k
  have hpos := G.scale_pos
  have hge := goodSched_start_le M occ G k
  have hc : ((k * M.scale.toNat : Nat) : Int) = (k : Int) * M.scale := by
    push_cast
    rw [Int.toNat_of_nonneg (le_of_lt hpos)]
  have h2 : ((k * M.scale.toNat : Nat) : Int) ≤ occ k - M.start := by
    rw [hc]; linarith
  have h1 : k * M.scale.toNat ≤ (occ k - M.start).toNat :=
    (Int.le_toNat (by linarith)).mpr h2
  have hps : 0 < M.scale.toNat := by omega
  have h3 : k ≤ (occ k - M.start).toNat / M.scale.toNat :=
    (Nat.le_div_iff_mul_le hps).mpr h1
  omega

/-- Helper: a successful `_find_bucket_for_task` scan returns a member of
the list whose start lies in the scanned window. -/
theorem findBucketGo_some (minT maxT : Int) :
    ∀ (l : List Bucket) (b : Bucket), findBucketGo minT maxT l = some b →
      b ∈ l ∧ minT ≤ b.start ∧ b.start ≤ maxT := by
  intro l
  induction l with
  | nil => intro b h; cases h
  | cons c cs ih =>
    intro b h
    simp only [findBucketGo] at h
    split_ifs at h with h1 h2
    · injection h with h3
      subst h3
      exact ⟨List.mem_cons_self _ _, h2.1, h2.2⟩
    · obtain ⟨hm, hmin, hmax⟩ := ih b h
      exact ⟨List.mem_cons_of_mem c hm, hmin, hmax⟩

/-- Helper: `_find_bucket_for_task` returns a member of the bucket list
whose start lies in the task's scale-aligned window. -/
theorem findBucketForTask_some (u : Int) (buckets : List Bucket) (t : Int) (b : Bucket)
    (h : findBucketForTask u buckets t = some b) :
    b ∈ buckets ∧ t - t % u ≤ b.start ∧ b.start ≤ t - t % u + u :=
  findBucketGo_some _ _ buckets b h

/-- Helper: `_find_bucket_for_task` only depends on the task through its
window's lower edge. -/
theorem findBucketForTask_congr (u : Int) (buckets : List Bucket) (t t' : Int)
    (h : t - t % u = t' - t' % u) :
    findBucketForTask u buckets t = findBucketForTask u buckets t' := by
  show findBucketGo (t - t % u) (t - t % u + u) buckets
      = findBucketGo (t' - t' % u) (t' - t' % u + u) buckets
  rw [h]

/-- Helper: a non-qualifying index has a zero run. -/
theorem runLen_zero_of_false (Q : Nat → Bool) (k : Nat) (h : Q k = false) :
    runLen Q k = 0 := by
  cases k <;> simp [runLen, h]

/-- Helper: the longest-streak walk result dominates both accumulators. -/
theorem lgoIdx_ge_acc (Q : Nat → Bool) :
    ∀ k cur lng, cur ≤ lgoIdx Q k cur lng ∧ lng ≤ lgoIdx Q k cur lng := by
  intro k
  induction k with
  | zero =>
    intro cur lng
    by_cases h : Q 0
    · simp only [lgoIdx, if_pos h]
      omega
    · simp only [lgoIdx, if_neg h]
      omega
  | succ k ih =>
    intro cur lng
    by_cases h : Q (k + 1)
    · simp only [lgoIdx, if_pos h]
      have := ih (cur + 1) lng
      omega
    · simp only [lgoIdx, if_neg h]
      have := ih 0 (max cur lng)
      omega

/-- Helper: at a qualifying index the longest-streak walk result dominates
the current accumulator extended by the whole downward qualifying run. -/
theorem lgoIdx_ge_runLen_of_true (Q : Nat → Bool) :
    ∀ k cur lng, Q k = true → cur + runLen Q k ≤ lgoIdx Q k cur lng := by
  intro k
  induction k with
  | zero =>
    intro cur lng h
    simp only [lgoIdx, runLen, if_pos h]
    omega
  | succ k ih =>
    intro cur lng h
    simp only [lgoIdx, runLen, if_pos h]
    by_cases hk : Q k
    · have := ih (cur + 1) lng hk
      omega
    · have h0 := runLen_zero_of_false Q k (by simpa using hk)
      have := (lgoIdx_ge_acc Q k (cur + 1) lng).1
      omega

/-- Helper: the longest-streak walk from any point at or above `k`
dominates the qualifying run ending at `k`. -/
theorem lgoIdx_ge_runLen (Q : Nat → Bool) :
    ∀ m k cur lng, k ≤ m → runLen Q k ≤ lgoIdx Q m cur lng := by
  intro m
  induction m with
  | zero =>
    intro k cur lng hk
    have hk0 : k = 0 := Nat.le_zero.mp hk
    subst hk0
    by_cases h : Q 0
    · have := lgoIdx_ge_runLen_of_true Q 0 cur lng h
      omega
    · rw [runLen_zero_of_false Q 0 (by simpa using h)]
      exact Nat.zero_le _
  | succ m ih =>
    intro k cur lng hk
    rcases eq_or_lt_of_le hk with rfl | hlt
    · by_cases h : Q (m + 1)
      · have := lgoIdx_ge_runLen_of_true Q (m + 1) cur lng h
        omega
      · rw [runLen_zero_of_false Q (m + 1) (by simpa using h)]
        exact Nat.zero_le _
    · have hk' : k ≤ m := Nat.lt_succ_iff.mp hlt
      by_cases h : Q (m + 1)
      · simp only [lgoIdx, h, if_true]
        exact ih k _ _ hk'
      · simp only [lgoIdx, h, if_false]
        exact ih k _ _ hk'

/-- Helper: below the current time the streak walk computes exactly the
qualifying run length (no skipping happens there). -/
theorem sgoIdx_eq_runLen (Q : Nat → Bool) (occ : Nat → Int) (now : Int) :
    ∀ k, (∀ j, j < k → occ j < now) → (Q k = true ∨ occ k < now) →
      sgoIdx Q occ now k = runLen Q k := by
  intro k
  induction k with
  | zero => intro _ _; rfl
  | succ k ih =>
    intro hpure hk
    by_cases hq : Q (k + 1)
    · simp only [sgoIdx, runLen, hq, if_true]
      congr 1
      exact ih (fun j hj => hpure j (Nat.lt_succ_of_lt hj))
        (Or.inr (hpure k (Nat.lt_succ_self k)))
    · have hlt : occ (k + 1) < now := by
        rcases hk with h | h
        · exact absurd h hq
        · exact h
      simp [sgoIdx, runLen, hq, hlt]

/-- Helper (main combinatorial step): the indexed streak walk never exceeds
the indexed longest-streak walk, given that every qualifying index lies at
or below the longest walk's starting index, the occurrence just below the
streak walk's start is not in the future, and a qualifying future
occurrence sharing its window with a current occurrence forces the latter
to qualify too. -/
theorem streak_le_longest_idx (Q : Nat → Bool) (occ : Nat → Int) (now : Int)
    (hmono : StrictMono occ) (m0 k0 : Nat)
    (hQm : ∀ j, Q j = true → j ≤ m0)
    (hN3 : ∀ j, k0 = j + 1 → occ j ≤ now)
    (hexcl : ∀ j, now < occ (j + 1) → occ j = now → Q (j + 1) = true → Q j = true) :
    sgoIdx Q occ now k0 ≤ lgoIdx Q m0 0 0 := by
  cases k0 with
  | zero =>
    by_cases h : Q 0
    · have h1 : runLen Q 0 ≤ lgoIdx Q m0 0 0 := lgoIdx_ge_runLen Q m0 0 0 0 (hQm 0 h)
      simp only [runLen, h, if_true] at h1
      simp only [sgoIdx, h, if_true]
      exact h1
    · simp [sgoIdx, h]
  | succ k =>
    have hk : occ k ≤ now := hN3 k rfl
    by_cases hq : Q (k + 1)
    · have hk1 : k + 1 ≤ m0 := hQm _ hq
      rcases lt_or_le (occ k) now with hklt | hkge
      · have hpure : ∀ j, j < k + 1 → occ j < now := by
          intro j hj
          rcases Nat.lt_succ_iff_lt_or_eq.mp hj with h | h
          · exact lt_trans (hmono h) hklt
          · exact h ▸ hklt
        rw [sgoIdx_eq_runLen Q occ now (k + 1) hpure (Or.inl hq)]
        exact lgoIdx_ge_runLen Q m0 (k + 1) 0 0 hk1
      · have hkeq : occ k = now := le_antisymm hk hkge
        have hgt : now < occ (k + 1) :=
          lt_of_eq_of_lt hkeq.symm (hmono (Nat.lt_succ_self k))
        have hQk : Q k = true := hexcl k hgt hkeq hq
        have hpure : ∀ j, j < k → occ j < now :=
          fun j hj => lt_of_lt_of_eq (hmono hj) hkeq
        have hs : sgoIdx Q occ now k = runLen Q k :=
          sgoIdx_eq_runLen Q occ now k hpure (Or.inl hQk)
        have hrun : runLen Q (k + 1) ≤ lgoIdx Q m0 0 0 :=
          lgoIdx_ge_runLen Q m0 (k + 1) 0 0 hk1
        simp only [runLen, hq, if_true] at hrun
        simp only [sgoIdx, hq, if_true, hs]
        exact hrun
    · by_cases hlt : occ (k + 1) < now
      · simp [sgoIdx, hq, hlt]
      · have hstep : sgoIdx Q occ now (k + 1) = sgoIdx Q occ now k := by
          simp [sgoIdx, hq, hlt]
        rw [hstep]
        rcases lt_or_le (occ k) now with hklt | hkge
        · have hpure : ∀ j, j < k → occ j < now := fun j hj => lt_trans (hmono hj) hklt
          rw [sgoIdx_eq_runLen Q occ now k hpure (Or.inr hklt)]
          by_cases hQk : Q k
          · exact lgoIdx_ge_runLen Q m0 k 0 0 (hQm k hQk)
          · rw [runLen_zero_of_false Q k (by simpa using hQk)]
            exact Nat.zero_le _
        · have hkeq : occ k = now := le_antisymm hk hkge
          by_cases hQk : Q k
          · have hpure : ∀ j, j < k → occ j < now :=
              fun j hj => lt_of_lt_of_eq (hmono hj) hkeq
            rw [sgoIdx_eq_runLen Q occ now k hpure (Or.inl hQk)]
            exact lgoIdx_ge_runLen Q m0 k 0 0 (hQm k hQk)
          · cases k with
            | zero => simp [sgoIdx, hQk]
            | succ j =>
              have hlt2 : ¬ occ (j + 1) < now := by
                rw [hkeq]
                exact lt_irrefl _
              have hstep2 : sgoIdx Q occ now (j + 1) = sgoIdx Q occ now j := by
                simp [sgoIdx, hQk, hlt2]
              rw [hstep2]
              have hjlt : occ j < now :=
                lt_of_lt_of_eq (hmono (Nat.lt_succ_self j)) hkeq
              have hpure : ∀ i, i < j → occ i < now :=
                fun i hi => lt_trans (hmono hi) hjlt
              rw [sgoIdx_eq_runLen Q occ now j hpure (Or.inr hjlt)]
              by_cases hQj : Q j
              · exact lgoIdx_ge_runLen Q m0 j 0 0 (hQm j hQj)
              · rw [runLen_zero_of_false Q j (by simpa using hQj)]
                exact Nat.zero_le _

/-- Helper: the fuelled streak walk on an exhausted (`None`) task is 0. -/
theorem streakGo_none (M : SchedModel) (alloc : Option Int) (buckets : List Bucket)
    (now : Int) : ∀ fuel, streakGo M alloc buckets now fuel none = 0 := by
  intro fuel
  cases fuel <;> rfl

/-- Helper: the fuelled longest-streak walk on an exhausted task returns
the flushed maximum. -/
theorem longGo_none (M : SchedModel) (alloc : Option Int) (buckets : List Bucket) :
    ∀ fuel cur lng, longGo M alloc buckets fuel none cur lng = max cur lng := by
  intro fuel cur lng
  cases fuel <;> rfl

/-- Helper: with enough fuel, the code's `get_streak` walk started at
occurrence `k` equals the indexed walk. -/
theorem streakGo_eq_sgoIdx (M : SchedModel) (occ : Nat → Int) (G : GoodSched M occ)
    (alloc : Option Int) (buckets : List Bucket) (now : Int) :
    ∀ (k fuel : Nat), k + 2 ≤ fuel →
      streakGo M alloc buckets now fuel (some (occ k))
        = sgoIdx (occQual M alloc buckets occ) occ now k := by
  intro k
  induction k with
  | zero =>
    intro fuel hf
    match fuel, hf with
    | fuel + 1, _ =>
      have hge : ¬ occ 0 < M.start := by
        rw [G.occ_zero]
        exact lt_irrefl _
      rcases hfb : findBucketForTask M.scale buckets (occ 0) with _ | b
      · simp [streakGo, sgoIdx, occQual, hge, hfb, G.prev_occ_zero, streakGo_none]
      · by_cases hqq : qualifiesForStreak alloc M.start M.scale b
        · simp [streakGo, sgoIdx, occQual, hge, hfb, hqq, G.prev_occ_zero, streakGo_none]
        · simp [streakGo, sgoIdx, occQual, hge, hfb, hqq, G.prev_occ_zero, streakGo_none]
  | succ k ih =>
    intro fuel hf
    match fuel, hf with
    | fuel + 1, _ =>
      have hge : ¬ occ (k + 1) < M.start := not_lt.mpr (goodSched_start_le M occ G (k + 1))
      have hprev := G.prev_occ_succ k
      have hih := ih fuel (by omega)
      rcases hfb : findBucketForTask M.scale buckets (occ (k + 1)) with _ | b
      · simp [streakGo, sgoIdx, occQual, hge, hfb, hprev, hih]
      · by_cases hqq : qualifiesForStreak alloc M.start M.scale b
        · simp [streakGo, sgoIdx, occQual, hge, hfb, hqq, hprev, hih]
        · simp [streakGo, sgoIdx, occQual, hge, hfb, hqq, hprev, hih]

/-- Helper: with enough fuel, the code's `get_longest_streak` walk started
at occurrence `k` equals the indexed walk. -/
theorem longGo_eq_lgoIdx (M : SchedModel) (occ : Nat → Int) (G : GoodSched M occ)
    (alloc : Option Int) (buckets : List Bucket) :
    ∀ (k fuel cur lng : Nat), k + 2 ≤ fuel →
      longGo M alloc buckets fuel (some (occ k)) cur lng
        = lgoIdx (occQual M alloc buckets occ) k cur lng := by
  intro k
  induction k with
  | zero =>
    intro fuel cur lng hf
    match fuel, hf with
    | fuel + 1, _ =>
      have hge : ¬ occ 0 < M.start := by
        rw [G.occ_zero]
        exact lt_irrefl _
      rcases hfb : findBucketForTask M.scale buckets (occ 0) with _ | b
      · simp [longGo, lgoIdx, occQual, hge, hfb, G.prev_occ_zero, longGo_none]
      · by_cases hqq : qualifiesForStreak alloc M.start M.scale b
        · simp [longGo, lgoIdx, occQual, hge, hfb, hqq, G.prev_occ_zero, longGo_none]
        · simp [longGo, lgoIdx, occQual, hge, hfb, hqq, G.prev_occ_zero, longGo_none]
  | succ k ih =>
    intro fuel cur lng hf
    match fuel, hf with
    | fuel + 1, _ =>
      have hge : ¬ occ (k + 1) < M.start := not_lt.mpr (goodSched_start_le M occ G (k + 1))
      have hprev := G.prev_occ_succ k
      have hih : ∀ cur lng, longGo M alloc buckets fuel (some (occ k)) cur lng
          = lgoIdx (occQual M alloc buckets occ) k cur lng :=
        fun cur lng => ih fuel cur lng (by omega)
      rcases hfb : findBucketForTask M.scale buckets (occ (k + 1)) with _ | b
      · simp [longGo, lgoIdx, occQual, hge, hfb, hprev, hih]
      · by_cases hqq : qualifiesForStreak alloc M.start M.scale b
        · simp [longGo, lgoIdx, occQual, hge, hfb, hqq, hprev, hih]
        · simp [longGo, lgoIdx, occQual, hge, hfb, hqq, hprev, hih]

/-- Helper (generic streak-monotonicity): for any schedule satisfying the
`GoodSched` interface facts, all buckets at or before the current time and
the head bucket latest, `get_streak <= get_longest_streak`. -/
theorem streak_le_longest_generic (M : SchedModel) (occ : Nat → Int) (G : GoodSched M occ)
    (alloc : Option Int) (buckets : List Bucket) (now : Int)
    (hmax : ∀ b0 bs, buckets = b0 :: bs → ∀ b ∈ buckets, b.start ≤ b0.start)
    (hpast : ∀ b ∈ buckets, b.start ≤ now) :
    getStreak M alloc buckets now ≤ getLongestStreak M alloc buckets := by
  match buckets, hmax, hpast with
  | [], _, _ => simp [getStreak, getLongestStreak]
  | b0 :: bs, hmax, hpast =>
    obtain ⟨k0, hk0⟩ := G.next_mem now
    obtain ⟨m0, hm0⟩ := G.next_mem b0.start
    have hs : getStreak M alloc (b0 :: bs) now
        = sgoIdx (occQual M alloc (b0 :: bs) occ) occ now k0 := by
      show (if (b0 :: bs).isEmpty then 0
          else streakGo M alloc (b0 :: bs) now (streakFuel M (M.nextTask now))
            (some (M.nextTask now))) = _
      rw [if_neg (by simp), hk0]
      exact streakGo_eq_sgoIdx M occ G alloc (b0 :: bs) now k0 _ (goodSched_fuel M occ G k0)
    have hl : getLongestStreak M alloc (b0 :: bs)
        = lgoIdx (occQual M alloc (b0 :: bs) occ) m0 0 0 := by
      show longGo M alloc (b0 :: bs) (streakFuel M (M.nextTask b0.start))
          (some (M.nextTask b0.start)) 0 0 = _
      rw [hm0]
      exact longGo_eq_lgoIdx M occ G alloc (b0 :: bs) m0 _ 0 0 (goodSched_fuel M occ G m0)
    rw [hs, hl]
    apply streak_le_longest_idx _ occ now (goodSched_strictMono M occ G) m0 k0
    · intro j hj
      rcases hfb : findBucketForTask M.scale (b0 :: bs) (occ j) with _ | b
      · simp [occQual, hfb] at hj
      · obtain ⟨hmem, hmin, _⟩ := findBucketForTask_some M.scale _ _ b hfb
        have hb0 : b.start ≤ b0.start := hmax b0 bs rfl b hmem
        have hle := G.next_floor_le b0.start j (le_trans hmin hb0)
        rw [hm0] at hle
        exact (goodSched_strictMono M occ G).le_iff_le.mp hle
    · intro j hj
      apply G.next_prev_le now j
      rw [hk0, hj]
    · intro j hgt heq hQ
      rcases hfb : findBucketForTask M.scale (b0 :: bs) (occ (j + 1)) with _ | b
      · simp [occQual, hfb] at hQ
      · obtain ⟨hmem, hmin, _⟩ := findBucketForTask_some M.scale _ _ b hfb
        have hbnow : b.start ≤ now := hpast b hmem
        have hfloor : occ (j + 1) - (occ (j + 1)) % M.scale ≤ occ j := by
          rw [heq]
          exact le_trans hmin hbnow
        have hwin : occ j - (occ j) % M.scale
            = occ (j + 1) - (occ (j + 1)) % M.scale :=
          window_eq_of_between M.scale (occ (j + 1)) (occ j) G.scale_pos hfloor
            (le_of_lt (goodSched_strictMono M occ G (Nat.lt_succ_self j)))
        have hfind := findBucketForTask_congr M.scale (b0 :: bs) (occ j) (occ (j + 1)) hwin
        have hQ' : qualifiesForStreak alloc M.start M.scale b = true := by
          simpa [occQual, hfb] using hQ
        simp [occQual, hfind, hfb, hQ']

/-- Helper: the hourly variant satisfies the schedule-interface facts, with
occurrence chain `start + 3600*k`. -/
theorem hourly_goodSched (S : Int) :
    GoodSched (hourlySched S) (fun k => S + 3600 * (k : Int)) := by
  refine ⟨?_, ?_, ?_, ?_, ?_, ?_, ?_, ?_⟩
  · simp [hourlySched]
  · norm_num [hourlySched, hourlyGetScale, HOUR]
  · intro k
    simp only [hourlySched, hourlyGetScale, HOUR]
    push_cast
    omega
  · intro k
    simp only [hourlySched]
    unfold hourlyGetPreviousTask
    rw [if_neg (by push_cast; omega), add_sub_cancel_left,
      Int.mul_fdiv_cancel_left _ (by norm_num), if_neg (by push_cast; omega)]
    congr 1
    push_cast
    ring
  · simp [hourlySched, hourlyGetPreviousTask]
  · intro x
    simp only [hourlySched]
    unfold hourlyGetNextTask
    rcases lt_or_le x S with hx | hx
    · exact ⟨0, by rw [if_pos hx]; simp⟩
    · have hd : 0 ≤ (x - S).fdiv 3600 := Int.fdiv_nonneg (by omega) (by norm_num)
      refine ⟨((x - S).fdiv 3600 + 1).toNat, ?_⟩
      rw [if_neg (not_lt.mpr hx), Int.toNat_of_nonneg (by omega)]
  · intro x k h
    simp only [hourlySched] at h ⊢
    unfold hourlyGetNextTask at h
    rcases lt_or_le x S with hx | hx
    · rw [if_pos hx] at h
      push_cast at h
      omega
    · rw [if_neg (not_lt.mpr hx)] at h
      have h1 := mul_fdiv_le_self (x - S) 3600 (by norm_num)
      push_cast at h ⊢
      omega
  · intro x j h
    simp only [hourlySched, hourlyGetScale, HOUR] at h ⊢
    unfold hourlyGetNextTask
    rcases lt_or_le x S with hx | hx
    · rw [if_pos hx]
      omega
    · rw [if_neg (not_lt.mpr hx)]
      have h1 := mul_fdiv_le_self (x - S) 3600 (by norm_num)
      have h2 := lt_mul_fdiv_add_one (x - S) 3600 (by norm_num)
      omega

/-- Helper: collapse the week chain's double floor division. -/
theorem fdiv_7_86400 (a : Int) : ((604800 * a).fdiv 86400).fdiv 7 = a := by
  rw [show (604800 : Int) * a = 86400 * (7 * a) by ring,
    Int.mul_fdiv_cancel_left _ (by norm_num), Int.mul_fdiv_cancel_left _ (by norm_num)]

/-- Helper: collapse the 30-day chain's double floor division. -/
theorem fdiv_30_86400 (a : Int) : ((2592000 * a).fdiv 86400).fdiv 30 = a := by
  rw [show (2592000 : Int) * a = 86400 * (30 * a) by ring,
    Int.mul_fdiv_cancel_left _ (by norm_num), Int.mul_fdiv_cancel_left _ (by norm_num)]

/-- Helper: the daily variant satisfies the schedule-interface facts, with
occurrence chain `start + 86400*k`. -/
theorem daily_goodSched (S : Int) :
    GoodSched (dailySched S) (fun k => S + 86400 * (k : Int)) := by
  refine ⟨?_, ?_, ?_, ?_, ?_, ?_, ?_, ?_⟩
  · simp [dailySched]
  · norm_num [dailySched, dailyGetScale, DAY]
  · intro k
    simp only [dailySched, dailyGetScale, DAY]
    push_cast
    omega
  · intro k
    simp only [dailySched]
    unfold dailyGetPreviousTask
    rw [if_neg (by push_cast; omega), add_sub_cancel_left,
      Int.mul_fdiv_cancel_left _ (by norm_num), if_neg (by push_cast; omega)]
    congr 1
    push_cast
    ring
  · simp [dailySched, dailyGetPreviousTask]
  · intro x
    simp only [dailySched]
    obtain ⟨k, he, hk⟩ := daily_next_shape S x
    exact ⟨k.toNat, by rw [he, Int.toNat_of_nonneg hk]⟩
  · intro x k h
    simp only [dailySched] at h ⊢
    unfold dailyGetNextTask at h
    rcases lt_or_le x S with hx | hx
    · rw [if_pos hx] at h
      push_cast at h
      omega
    · rw [if_neg (not_lt.mpr hx)] at h
      have h1 := mul_fdiv_le_self (x - S) 86400 (by norm_num)
      split_ifs at h with hc
      · push_cast at h ⊢
        omega
      · push_cast at h ⊢
        omega
  · intro x j h
    simp only [dailySched, dailyGetScale, DAY] at h ⊢
    unfold dailyGetNextTask dateOf
    rcases lt_or_le x S with hx | hx
    · rw [if_pos hx]
      omega
    · rw [if_neg (not_lt.mpr hx)]
      have h1 := mul_fdiv_le_self (x - S) 86400 (by norm_num)
      have h2 := lt_mul_fdiv_add_one (x - S) 86400 (by norm_num)
      have h3 := mul_fdiv_le_self x 86400 (by norm_num)
      have h4 := lt_mul_fdiv_add_one x 86400 (by norm_num)
      have h5 := mul_fdiv_le_self (S + 86400 * ((x - S).fdiv 86400)) 86400 (by norm_num)
      have h6 := lt_mul_fdiv_add_one (S + 86400 * ((x - S).fdiv 86400)) 86400 (by norm_num)
      split_ifs with hc
      · omega
      · omega

/-- Helper: the weekly variant satisfies the schedule-interface facts, with
occurrence chain `start + 604800*k`. -/
theorem weekly_goodSched (S : Int) :
    GoodSched (weeklySched S) (fun k => S + 604800 * (k : Int)) := by
  refine ⟨?_, ?_, ?_, ?_, ?_, ?_, ?_, ?_⟩
  · simp [weeklySched]
  · norm_num [weeklySched, weeklyGetScale, WEEK]
  · intro k
    simp only [weeklySched, weeklyGetScale, WEEK]
    push_cast
    omega
  · intro k
    simp only [weeklySched]
    unfold weeklyGetPreviousTask
    rw [if_neg (by push_cast; omega), add_sub_cancel_left, fdiv_7_86400,
      if_neg (by push_cast; omega)]
    congr 1
    push_cast
    ring
  · simp [weeklySched, weeklyGetPreviousTask]
  · intro x
    simp only [weeklySched]
    unfold weeklyGetNextTask
    rcases lt_or_le x S with hx | hx
    · exact ⟨0, by rw [if_pos hx]; simp⟩
    · have hd : 0 ≤ ((x - S).fdiv 86400).fdiv 7 :=
        Int.fdiv_nonneg (Int.fdiv_nonneg (by omega) (by norm_num)) (by norm_num)
      refine ⟨(((x - S).fdiv 86400).fdiv 7 + 1).toNat, ?_⟩
      rw [if_neg (not_lt.mpr hx), Int.toNat_of_nonneg (by omega)]
  · intro x k h
    simp only [weeklySched] at h ⊢
    unfold weeklyGetNextTask at h
    rcases lt_or_le x S with hx | hx
    · rw [if_pos hx] at h
      push_cast at h
      omega
    · rw [if_neg (not_lt.mpr hx)] at h
      have h1 := mul_fdiv_le_self (x - S) 86400 (by norm_num)
      have h3 := mul_fdiv_le_self ((x - S).fdiv 86400) 7 (by norm_num)
      push_cast at h ⊢
      omega
  · intro x j h
    simp only [weeklySched, weeklyGetScale, WEEK] at h ⊢
    unfold weeklyGetNextTask
    rcases lt_or_le x S with hx | hx
    · rw [if_pos hx]
      omega
    · rw [if_neg (not_lt.mpr hx)]
      have h1 := mul_fdiv_le_self (x - S) 86400 (by norm_num)
      have h2 := lt_mul_fdiv_add_one (x - S) 86400 (by norm_num)
      have h3 := mul_fdiv_le_self ((x - S).fdiv 86400) 7 (by norm_num)
      have h4 := lt_mul_fdiv_add_one ((x - S).fdiv 86400) 7 (by norm_num)
      omega

/-- Helper: the monthly variant satisfies the schedule-interface facts, with
occurrence chain `start + 2592000*k` (note its scale is `WEEK`). -/
theorem monthly_goodSched (S : Int) :
    GoodSched (monthlySched S) (fun k => S + 2592000 * (k : Int)) := by
  refine ⟨?_, ?_, ?_, ?_, ?_, ?_, ?_, ?_⟩
  · simp [monthlySched]
  · norm_num [monthlySched, monthlyGetScale, WEEK]
  · intro k
    simp only [monthlySched, monthlyGetScale, WEEK]
    push_cast
    omega
  · intro k
    simp only [monthlySched]
    unfold monthlyGetPreviousTask
    rw [if_neg (by push_cast; omega), add_sub_cancel_left, fdiv_30_86400,
      if_neg (by push_cast; omega)]
    congr 1
    push_cast
    ring
  · simp [monthlySched, monthlyGetPreviousTask]
  · intro x
    simp only [monthlySched]
    obtain ⟨k, he, hk⟩ := monthly_next_shape S x
    exact ⟨k.toNat, by rw [he, Int.toNat_of_nonneg hk]⟩
  · intro x k h
    simp only [monthlySched] at h ⊢
    unfold monthlyGetNextTask at h
    rcases lt_or_le x S with hx | hx
    · rw [if_pos hx] at h
      push_cast at h
      omega
    · rw [if_neg (not_lt.mpr hx)] at h
      have h1 := mul_fdiv_le_self (x - S) 86400 (by norm_num)
      have h3 := mul_fdiv_le_self ((x - S).fdiv 86400) 30 (by norm_num)
      split_ifs at h with hc
      · push_cast at h ⊢
        omega
      · push_cast at h ⊢
        omega
  · intro x j h
    simp only [monthlySched, monthlyGetScale, WEEK] at h ⊢
    unfold monthlyGetNextTask
    rcases lt_or_le x S with hx | hx
    · rw [if_pos hx]
      omega
    · rw [if_neg (not_lt.mpr hx)]
      have h1 := mul_fdiv_le_self (x - S) 86400 (by norm_num)
      have h2 := lt_mul_fdiv_add_one (x - S) 86400 (by norm_num)
      have h3 := mul_fdiv_le_self ((x - S).fdiv 86400) 30 (by norm_num)
      have h4 := lt_mul_fdiv_add_one ((x - S).fdiv 86400) 30 (by norm_num)
      split_ifs with hc
      · omega
      · omega

/-- Helper: one step of the exponential cumulative chain. -/
theorem expCum_succ (b k : Nat) : expCum b (k + 1) = expCum b k + b ^ (k + 1) := rfl

/-- Helper: the cumulative chain dominates its index (positive base). -/
theorem expCum_ge (b : Nat) (hb : 1 ≤ b) : ∀ k, k ≤ expCum b k := by
  intro k
  induction k with
  | zero => simp [expCum]
  | succ k ih =>
    have hp : 1 ≤ b ^ (k + 1) := Nat.one_le_pow _ _ (by omega)
    simp only [expCum]
    omega

/-- Helper: the cumulative chain is strictly increasing (positive base). -/
theorem expCum_strictMono (b : Nat) (hb : 1 ≤ b) : StrictMono (expCum b) := by
  apply strictMono_nat_of_lt_succ
  intro k
  have hp : 1 ≤ b ^ (k + 1) := Nat.one_le_pow _ _ (by omega)
  simp only [expCum]
  omega

/-- Helper: the next-task loop stops as soon as the count exceeds the goal. -/
theorem expNextLoop_stop (b : Nat) (dd : Int) (fuel e cum : Nat) (h : dd < (cum : Int)) :
    expNextLoop b dd fuel e cum = cum := by
  cases fuel with
  | zero => rfl
  | succ fuel =>
    simp only [expNextLoop]
    rw [if_neg (by omega)]

/-- Helper: with enough fuel, the next-task loop started on the chain lands
on the first chain value strictly above `days_diff`. -/
theorem expNextLoop_spec (b : Nat) (hb : 1 ≤ b) (dd : Int) :
    ∀ (fuel j : Nat), (expCum b j : Int) ≤ dd →
      (dd + 1 - (expCum b j : Int)).toNat ≤ fuel →
      ∃ m, j ≤ m ∧ expNextLoop b dd fuel (j + 1) (expCum b j) = expCum b (m + 1) ∧
        (expCum b m : Int) ≤ dd ∧ dd < (expCum b (m + 1) : Int) := by
  intro fuel
  induction fuel with
  | zero =>
    intro j hj hf
    exfalso
    omega
  | succ fuel ih =>
    intro j hj hf
    have hp : 1 ≤ b ^ (j + 1) := Nat.one_le_pow _ _ (by omega)
    have hcast : ((expCum b (j + 1) : Nat) : Int)
        = ((expCum b j : Nat) : Int) + ((b ^ (j + 1) : Nat) : Int) := by
      exact_mod_cast expCum_succ b j
    simp only [expNextLoop]
    rw [if_pos hj, ← expCum_succ]
    by_cases hC : ((expCum b (j + 1) : Nat) : Int) ≤ dd
    · obtain ⟨m, hm1, hm2, hm3, hm4⟩ := ih (j + 1) hC (by omega)
      exact ⟨m, by omega, hm2, hm3, hm4⟩
    · rw [expNextLoop_stop b dd fuel (j + 1 + 1) _ (by omega)]
      exact ⟨j, le_rfl, rfl, hj, by omega⟩

/-- Helper: the next-task loop specification from its actual entry point. -/
theorem expNextLoop_spec0 (b : Nat) (hb : 1 ≤ b) (dd : Int) (hdd : 0 ≤ dd)
    (fuel : Nat) (hf : dd.toNat + 1 ≤ fuel) :
    ∃ m, expNextLoop b dd fuel 1 0 = expCum b (m + 1) ∧
      (expCum b m : Int) ≤ dd ∧ dd < (expCum b (m + 1) : Int) := by
  have h := expNextLoop_spec b hb dd fuel 0 (by simpa [expCum] using hdd)
    (by simp [expCum]; omega)
  obtain ⟨m, _, hm2, hm3, hm4⟩ := h
  refine ⟨m, ?_, hm3, hm4⟩
  simpa [expCum] using hm2

/-- Helper: the previous-task loop stops when the count reaches the goal. -/
theorem expPrevLoop_stop (b : Nat) (dd : Int) (fuel e cum : Nat) (h : ¬ (cum : Int) < dd) :
    expPrevLoop b dd fuel e cum = (e, cum) := by
  cases fuel with
  | zero => rfl
  | succ fuel =>
    simp only [expPrevLoop]
    rw [if_neg h]

/-- Helper: run the previous-task loop along the chain up to an exact chain
value. -/
theorem expPrevLoop_from (b : Nat) (hb : 1 ≤ b) (t : Nat) :
    ∀ (fuel j : Nat), j ≤ t → t - j ≤ fuel →
      expPrevLoop b (expCum b t : Int) fuel (j + 1) (expCum b j) = (t + 1, expCum b t) := by
  intro fuel
  induction fuel with
  | zero =>
    intro j hj hf
    have hjt : j = t := by omega
    subst hjt
    rfl
  | succ fuel ih =>
    intro j hj hf
    rcases eq_or_lt_of_le hj with rfl | hlt
    · exact expPrevLoop_stop b _ _ _ _ (by omega)
    · have hCC : expCum b j < expCum b t := expCum_strictMono b hb hlt
      simp only [expPrevLoop]
      rw [if_pos (by exact_mod_cast hCC), ← expCum_succ]
      exact ih (j + 1) hlt (by omega)

/-- Helper: the previous-task loop from its actual entry point. -/
theorem expPrevLoop_run (b : Nat) (hb : 1 ≤ b) (t fuel : Nat) (hf : t ≤ fuel) :
    expPrevLoop b (expCum b t : Int) fuel 1 0 = (t + 1, expCum b t) := by
  have h := expPrevLoop_from b hb t fuel 0 (Nat.zero_le t) (by omega)
  simpa [expCum] using h

/-- Helper: the exponential variant satisfies the schedule-interface facts,
with occurrence chain `start + expCum(base, k)` days (positive base). -/
theorem exp_goodSched (S : Int) (b : Nat) (hb : 1 ≤ b) :
    GoodSched (expSched S b) (fun k => S + 86400 * ((expCum b k : Nat) : Int)) := by
  have hmono := expCum_strictMono b hb
  refine ⟨?_, ?_, ?_, ?_, ?_, ?_, ?_, ?_⟩
  · simp [expSched, expCum]
  · norm_num [expSched, expGetScale, DAY]
  · intro k
    simp only [expSched, expGetScale, DAY]
    have hp : 1 ≤ b ^ (k + 1) := Nat.one_le_pow _ _ (by omega)
    have hcast : ((expCum b (k + 1) : Nat) : Int)
        = ((expCum b k : Nat) : Int) + ((b ^ (k + 1) : Nat) : Int) := by
      exact_mod_cast expCum_succ b k
    omega
  · intro k
    simp only [expSched]
    have hge : k + 1 ≤ expCum b (k + 1) := expCum_ge b hb (k + 1)
    unfold expGetPreviousTask
    rw [if_neg (by push_cast; omega), add_sub_cancel_left,
      Int.mul_fdiv_cancel_left _ (by norm_num), Int.toNat_natCast,
      expPrevLoop_run b hb (k + 1) (expCum b (k + 1) + 2) (by omega)]
    congr 1
    have hcast : ((expCum b (k + 1) : Nat) : Int)
        = ((expCum b k : Nat) : Int) + ((b ^ (k + 1) : Nat) : Int) := by
      exact_mod_cast expCum_succ b k
    simp only [Nat.add_sub_cancel]
    push_cast at hcast ⊢
    omega
  · simp [expSched, expGetPreviousTask, expCum]
  · intro x
    simp only [expSched]
    unfold expGetNextTask
    rcases lt_or_le x S with hx | hx
    · exact ⟨0, by rw [if_pos hx]; simp [expCum]⟩
    · have hdd : 0 ≤ (x - S).fdiv 86400 := Int.fdiv_nonneg (by omega) (by norm_num)
      obtain ⟨m, hm, _, _⟩ := expNextLoop_spec0 b hb _ hdd
        (((x - S).fdiv 86400).toNat + 2) (by omega)
      exact ⟨m + 1, by rw [if_neg (not_lt.mpr hx), hm]⟩
  · intro x k h
    simp only [expSched] at h ⊢
    unfold expGetNextTask at h
    rcases lt_or_le x S with hx | hx
    · rw [if_pos hx] at h
      have hge : k + 1 ≤ expCum b (k + 1) := expCum_ge b hb (k + 1)
      exfalso
      omega
    · rw [if_neg (not_lt.mpr hx)] at h
      have hdd : 0 ≤ (x - S).fdiv 86400 := Int.fdiv_nonneg (by omega) (by norm_num)
      obtain ⟨m, hm, hm3, hm4⟩ := expNextLoop_spec0 b hb _ hdd
        (((x - S).fdiv 86400).toNat + 2) (by omega)
      rw [hm] at h
      have hCeq : expCum b (m + 1) = expCum b (k + 1) := by
        have hi : ((expCum b (m + 1) : Nat) : Int) = ((expCum b (k + 1) : Nat) : Int) := by
          omega
        exact_mod_cast hi
      have hmk : m + 1 = k + 1 := hmono.injective hCeq
      have hm' : m = k := by omega
      subst hm'
      have h1 := mul_fdiv_le_self (x - S) 86400 (by norm_num)
      omega
  · intro x j h
    simp only [expSched, expGetScale, DAY] at h ⊢
    unfold expGetNextTask
    rcases lt_or_le x S with hx | hx
    · rw [if_pos hx]
      omega
    · rw [if_neg (not_lt.mpr hx)]
      have hdd : 0 ≤ (x - S).fdiv 86400 := Int.fdiv_nonneg (by omega) (by norm_num)
      obtain ⟨m, hm, hm3, hm4⟩ := expNextLoop_spec0 b hb _ hdd
        (((x - S).fdiv 86400).toNat + 2) (by omega)
      rw [hm]
      by_contra hcon
      push_neg at hcon
      have hnat : expCum b (m + 1) < expCum b j := by
        have hi : ((expCum b (m + 1) : Nat) : Int) < ((expCum b j : Nat) : Int) := by
          omega
        exact_mod_cast hi
      have hlt : m + 1 < j := hmono.lt_iff_lt.mp hnat
      have hle : expCum b (m + 2) ≤ expCum b j := hmono.monotone (by omega)
      have hp : 1 ≤ b ^ (m + 2) := Nat.one_le_pow _ _ (by omega)
      have hsucc : expCum b (m + 2) = expCum b (m + 1) + b ^ (m + 2) := expCum_succ b (m + 1)
      have h1 := mul_fdiv_le_self (x - S) 86400 (by norm_num)
      have h2 := lt_mul_fdiv_add_one (x - S) 86400 (by norm_num)
      omega

/-- C6 counterexample: hourly habit anchored at 36000 (10:00), no
`allocated_time`, buckets (descending) starting at 48600 (13:30) and 42000
(11:40), current time 43200 (12:00).  The bucket at 13:30 is later than
"now"; `get_streak` counts it and the 11:40 bucket across the non-breaking
skip at the not-yet-due occurrence 43200, giving 2, while
`get_longest_streak` flushes the run at that same occurrence and returns 1. -/
theorem c6_counterexample :
    ¬ (getStreak (hourlySched 36000) none
          [⟨48600, some 49000, 0, 1⟩, ⟨42000, some 42500, 0, 1⟩] 43200 ≤
        getLongestStreak (hourlySched 36000) none
          [⟨48600, some 49000, 0, 1⟩, ⟨42000, some 42500, 0, 1⟩]) := by
  decide

/-- C6 amended: for every habit (any schedule the registry can construct,
any `allocated_time`) and every current time,
`get_streak() <= get_longest_streak()` holds provided every bucket starts
at or before the current time (and the bucket list is as the aggregator
returns it, most recent first — here: the head has the latest start).  The
counterexample shows the inequality genuinely fails once a bucket is dated
after "now". -/
theorem c6_streak_amended (nm : String) (S : Int) (M : SchedModel)
    (hM : habitGetSchedule nm S = Except.ok M)
    (alloc : Option Int) (buckets : List Bucket) (now : Int)
    (hmax : ∀ b0 bs, buckets = b0 :: bs → ∀ b ∈ buckets, b.start ≤ b0.start)
    (hpast : ∀ b ∈ buckets, b.start ≤ now) :
    getStreak M alloc buckets now ≤ getLongestStreak M alloc buckets := by
  unfold habitGetSchedule at hM
  split_ifs at hM
  · injection hM with h
    subst h
    exact streak_le_longest_generic _ _ (hourly_goodSched S) alloc buckets now hmax hpast
  · injection hM with h
    subst h
    exact streak_le_longest_generic _ _ (daily_goodSched S) alloc buckets now hmax hpast
  · injection hM with h
    subst h
    exact streak_le_longest_generic _ _ (weekly_goodSched S) alloc buckets now hmax hpast
  · injection hM with h
    subst h
    exact streak_le_longest_generic _ _ (monthly_goodSched S) alloc buckets now hmax hpast
  · injection hM with h
    subst h
    exact streak_le_longest_generic _ _ (exp_goodSched S 3 (by norm_num)) alloc buckets now
      hmax hpast

/-- C6 witness: the amended inequality at a concrete habit (hourly schedule
anchored at 0, one bucket starting one hour before the current time 0). -/
theorem c6_streak_amended_witness :
    getStreak (hourlySched 0) none [⟨-3600, none, 5, 1⟩] 0
      ≤ getLongestStreak (hourlySched 0) none [⟨-3600, none, 5, 1⟩] :=
  c6_streak_amended "hourly" 0 (hourlySched 0) rfl none [⟨-3600, none, 5, 1⟩] 0
    (by
      rintro b0 bs h b hb
      injection h with h1 h2
      subst h1
      simp only [List.mem_singleton] at hb
      subst hb
      exact le_refl _)
    (by
      intro b hb
      simp only [List.mem_singleton] at hb
      subst hb
      norm_num)

/-- C7: `HourlySchedule.get_next_tasks` has no return statement and yields
`None` instead of the documented list (here: start 0, now 0, a 2-hour
timespan), and `DailySchedule.get_previous_tasks` raises `TypeError` (the
modelled `none`) when the lookback window extends past the schedule start
(start 0, now at 1.5 days, 3-day timespan: the third iteration calls
`get_previous_task(None)`). -/
theorem c7_list_queries_crash :
    hourlyGetNextTasks 0 0 7200 = none ∧
      dailyGetPreviousTasks 0 129600 (3 * 86400) = none := by
  refine ⟨rfl, by decide⟩

/-- C8 counterexample: `exponential_2` belongs to the documented identifier
family `exponential_N`, yet `Habit._get_schedule` raises `ValueError` on it
(only `exponential_3` is registered). -/
theorem c8_counterexample :
    ¬ ∃ M, habitGetSchedule "exponential_2" 0 = Except.ok M := by
  rintro ⟨M, hM⟩
  simp [habitGetSchedule] at hM

/-- C8 amended: constructing a habit's schedule succeeds exactly for the
five registered identifiers `hourly`, `daily`, `weekly`, `monthly`,
`exponential_3`; every other identifier fails with a `ValueError` at
construction time. -/
theorem c8_registry_amended (s : String) (S : Int) :
    (∃ M, habitGetSchedule s S = Except.ok M) ↔
      s = "hourly" ∨ s = "daily" ∨ s = "weekly" ∨ s = "monthly" ∨ s = "exponential_3" := by
  unfold habitGetSchedule
  split_ifs with h1 h2 h3 h4 h5
  · exact iff_of_true ⟨_, rfl⟩ (by tauto)
  · exact iff_of_true ⟨_, rfl⟩ (by tauto)
  · exact iff_of_true ⟨_, rfl⟩ (by tauto)
  · exact iff_of_true ⟨_, rfl⟩ (by tauto)
  · exact iff_of_true ⟨_, rfl⟩ (by tauto)
  · refine iff_of_false ?_ (by simp [h1, h2, h3, h4, h5])
    rintro ⟨M, hM⟩
    cases hM

/-- C10: an `allocated_time` of `0` is falsy in Python, so
`_qualifies_for_streak` returns `True` for every bucket, exactly like an
unset (`None`) minimum. -/
theorem c10_zero_allocated_time_always_qualifies (S scale : Int) (b : Bucket) :
    qualifiesForStreak (some 0) S scale b = true := by
  unfold qualifiesForStreak allocTruthy
  simp

end Pianist
